import Mathlib

/-!
Verification of the core transcription pipeline of the `zentra` dictation
system: the failover orchestrator (provider ordering, confidence gating,
retry policy, per-provider circuit breakers), the session stitcher
(segment validation, silence gate, overlap-aware stitching, text
normalization), the WAV encoder, and the user-facing error mapping.

Shallow-embedding conventions:
- Rust `f32`/`f64` values that only ever participate in exact comparisons
  and arithmetic (durations, confidences, energy thresholds) are modelled
  as `ℚ`; fractional literals are written with `mkRat`.
- Rust machine integers are modelled as `Nat` with explicit saturation
  (`min _ (2^64 - 1)`) or wrapping (`% 2^32`) where the width matters.
- `std::time::Instant` is modelled as a `Nat` timestamp; `a.elapsed()`
  and `now.duration_since(b)` become truncated subtraction, matching the
  saturating behaviour of `Instant::duration_since`.
- Rust `String`/`&str` values that are inspected character by character
  are modelled as `List Char`; opaque identifiers stay `String`.
- `char::to_uppercase` / `to_lowercase` are modelled by their ASCII
  restriction (`asciiUpper` / `asciiLower`), which also exactly models
  `to_ascii_lowercase` / `to_ascii_uppercase`.
-/

/-! ### ASCII character helpers -/

/-- ASCII uppercase conversion: model of Rust `char::to_uppercase`
(restricted to ASCII) and of `to_ascii_uppercase`. -/
def asciiUpper (c : Char) : Char :=
  if 97 ≤ c.toNat ∧ c.toNat ≤ 122 then Char.ofNat (c.toNat - 32) else c

/-- ASCII lowercase conversion: model of Rust `char::to_lowercase`
(restricted to ASCII) and of `to_ascii_lowercase`. -/
def asciiLower (c : Char) : Char :=
  if 65 ≤ c.toNat ∧ c.toNat ≤ 90 then Char.ofNat (c.toNat + 32) else c

/-! ### STT types (src/src-tauri/src/stt/types.rs) -/

/-- Model of `STTError`. -/
inductive STTError where
  | networkError (detail : String)
  | timeoutError
  | audioTooLong
  | invalidAudio
  | authenticationError
  | rateLimitError
  | providerError (detail : String)
  | modelNotFound (detail : String)
deriving DecidableEq, Repr

/-- Model of `STTError::is_retryable`. -/
def STTError.is_retryable : STTError → Bool
  | .networkError _ => true
  | .timeoutError => true
  | .rateLimitError => true
  | _ => false

/-- Model of the `thiserror` `Display` strings of `STTError`
(the `#[error("...")]` attributes in types.rs). -/
def STTError.display : STTError → String
  | .networkError d => "Network error: " ++ d
  | .timeoutError => "Request timeout"
  | .audioTooLong => "Audio too long (max 59s for Groq)"
  | .invalidAudio => "Invalid audio format"
  | .authenticationError => "Authentication failed"
  | .rateLimitError => "Rate limit exceeded"
  | .providerError d => "Provider error: " ++ d
  | .modelNotFound d => "Model not found: " ++ d

/-- Model of `Transcript` (text as `List Char`, confidence as `ℚ`). -/
structure Transcript where
  text : List Char
  confidence : ℚ
  language : Option String
  duration_secs : ℚ
  provider : String
deriving DecidableEq, Repr

/-! ### Retry policy (src/src-tauri/src/orchestrator/retry.rs) -/

/-- `u64::MAX`, the saturation bound of `saturating_pow`/`saturating_mul`. -/
def u64Max : Nat := 2 ^ 64 - 1

/-- Model of `RetryPolicy` (`base_delay` is `Duration::from_secs(2)`; only
whole seconds matter since `wait_before_retry` works with `as_secs`). -/
structure RetryPolicy where
  max_retries : Nat
  base_delay_secs : Nat

/-- Model of `RetryPolicy::new`. -/
def RetryPolicy.new (maxRetries : Nat) : RetryPolicy :=
  { max_retries := maxRetries, base_delay_secs := 2 }

/-- Model of `RetryPolicy::should_retry`. -/
def RetryPolicy.should_retry (p : RetryPolicy) (attempt : Nat) (error : STTError) : Bool :=
  if attempt ≥ p.max_retries then false else error.is_retryable

/-- The number of seconds slept by `RetryPolicy::wait_before_retry`:
`base_delay.as_secs().saturating_mul(2u64.saturating_pow(attempt)).max(1)`
with explicit u64 saturation. -/
def RetryPolicy.wait_delay_secs (p : RetryPolicy) (attempt : Nat) : Nat :=
  let multiplier := min (2 ^ attempt) u64Max
  let delaySecs := min (p.base_delay_secs * multiplier) u64Max
  max delaySecs 1

/-! ### Circuit breaker (src/src-tauri/src/orchestrator/circuit_breaker.rs) -/

/-- Model of `CircuitState` (`Instant` as a `Nat` timestamp). -/
inductive CircuitState where
  | closed
  | open (tripped_at : Nat)
  | halfOpen
deriving DecidableEq, Repr

/-- Model of `CircuitBreaker`; `failure_count` is a `u8` in the source and
is incremented with `saturating_add`, modelled by `min (_ + 1) 255`.
Durations (`trip_window`, `cooldown`) are in whole seconds. -/
structure CircuitBreaker where
  state : CircuitState
  failure_count : Nat
  last_failure_time : Option Nat
  trip_threshold : Nat
  trip_window : Nat
  cooldown : Nat
deriving DecidableEq, Repr

/-- Model of `CircuitBreaker::new`. -/
def CircuitBreaker.new : CircuitBreaker :=
  { state := .closed
    failure_count := 0
    last_failure_time := none
    trip_threshold := 3
    trip_window := 300
    cooldown := 600 }

/-- Model of `CircuitBreaker::is_request_allowed` (which mutates `self` in
the `Open` branch): returns the decision and the updated breaker.
`tripped_at.elapsed() ≥ cooldown` becomes `now - tripped_at ≥ cooldown`. -/
def CircuitBreaker.is_request_allowed (cb : CircuitBreaker) (now : Nat) :
    Bool × CircuitBreaker :=
  match cb.state with
  | .closed => (true, cb)
  | .halfOpen => (true, cb)
  | .open tripped_at =>
    if now - tripped_at ≥ cb.cooldown then (true, { cb with state := .halfOpen })
    else (false, cb)

/-- Model of `CircuitBreaker::record_success`. -/
def CircuitBreaker.record_success (cb : CircuitBreaker) : CircuitBreaker :=
  { cb with state := .closed, failure_count := 0, last_failure_time := none }

/-- Model of `CircuitBreaker::record_failure` at time `now`
(`Instant::now()` in the source). -/
def CircuitBreaker.record_failure (cb : CircuitBreaker) (now : Nat) : CircuitBreaker :=
  let fc :=
    match cb.last_failure_time with
    | some last_fail =>
      if now - last_fail > cb.trip_window then 1 else min (cb.failure_count + 1) 255
    | none => 1
  let cb := { cb with failure_count := fc, last_failure_time := some now }
  if cb.failure_count ≥ cb.trip_threshold then { cb with state := .open now } else cb

/-! ### Failover orchestrator (src/src-tauri/src/orchestrator/mod.rs)

An adapter's behaviour is abstracted as `attempts : Nat → Except STTError
Transcript`, the result of the n-th call of `try_provider` for this
provider within one `transcribe` invocation (the `tokio::time::timeout`
wrapper is part of this abstraction: a timed-out attempt yields
`.error .timeoutError`).  `Instant::now()` is modelled by a single `now`
timestamp for the whole `transcribe` call. -/

/-- Model of `OrchestratorError`. -/
inductive OrchestratorError where
  | allProvidersFailed (errors : List (String × STTError))
  | noProvidersAvailable
deriving DecidableEq, Repr

/-- Model of `ProviderConfig` (the boxed adapter becomes the `attempts`
function). -/
structure ProviderConfig where
  id : String
  priority : Nat
  max_retries : Nat
  timeout_secs : Nat
  confidence_threshold : ℚ
  attempts : Nat → Except STTError Transcript

/-- Stable insertion of a provider into a list sorted by `priority`
(model of the stable `Vec::sort_by_key`). -/
def insertByPriority (p : ProviderConfig) : List ProviderConfig → List ProviderConfig
  | [] => [p]
  | q :: qs => if p.priority ≤ q.priority then p :: q :: qs else q :: insertByPriority p qs

/-- Model of `providers.sort_by_key(|p| p.priority)` (a stable sort). -/
def sortByPriority : List ProviderConfig → List ProviderConfig
  | [] => []
  | p :: ps => insertByPriority p (sortByPriority ps)

/-- Model of `FailoverOrchestrator`: the `HashMap`s of breakers and
metrics counters become total maps (`HashMap::entry(..).or_insert`
defaults and `CircuitBreaker::new` initialisation give exactly this
behaviour on every key that is ever read). -/
structure FailoverOrchestrator where
  providers : List ProviderConfig
  circuit_breakers : String → CircuitBreaker
  metrics_success : String → Nat
  metrics_failure : String → Nat

/-- Model of `FailoverOrchestrator::new`. -/
def FailoverOrchestrator.new (providers : List ProviderConfig) : FailoverOrchestrator :=
  { providers := sortByPriority providers
    circuit_breakers := fun _ => CircuitBreaker.new
    metrics_success := fun _ => 0
    metrics_failure := fun _ => 0 }

/-- Breaker + metrics updates of the success path of `transcribe`. -/
def recordProviderSuccess (st : FailoverOrchestrator) (id : String) : FailoverOrchestrator :=
  { st with
    circuit_breakers := fun x =>
      if x = id then (st.circuit_breakers x).record_success else st.circuit_breakers x
    metrics_success := fun x => if x = id then st.metrics_success x + 1 else st.metrics_success x }

/-- Breaker + metrics updates of the failure paths of `transcribe`. -/
def recordProviderFailure (st : FailoverOrchestrator) (id : String) (now : Nat) :
    FailoverOrchestrator :=
  { st with
    circuit_breakers := fun x =>
      if x = id then (st.circuit_breakers x).record_failure now else st.circuit_breakers x
    metrics_failure := fun x => if x = id then st.metrics_failure x + 1 else st.metrics_failure x }

/-- The inner `loop` of `transcribe` for one provider: repeated
`try_provider` calls until an `Ok` or a non-retried error.  `fuel` is a
structural-recursion bound; called with `fuel = max_retries + 1 - attempt`
it is never exhausted, since `should_retry` forces `attempt < max_retries`
(the `fuel = 0` branch is unreachable). -/
def providerAttemptResult (p : ProviderConfig) : Nat → Nat → Except STTError Transcript
  | _, 0 => .error .timeoutError
  | attempt, fuel + 1 =>
    match p.attempts attempt with
    | .ok t => .ok t
    | .error e =>
      if (RetryPolicy.new p.max_retries).should_retry attempt e then
        providerAttemptResult p (attempt + 1) fuel
      else .error e

/-- The result of the retry loop for one provider, starting at attempt 0. -/
def providerFinalResult (p : ProviderConfig) : Except STTError Transcript :=
  providerAttemptResult p 0 (p.max_retries + 1)

/-- The provider iteration of `FailoverOrchestrator::transcribe`. -/
def transcribeLoop (now : Nat) :
    List ProviderConfig → FailoverOrchestrator → List (String × STTError) →
    Except OrchestratorError Transcript × FailoverOrchestrator
  | [], st, all_errors => (.error (.allProvidersFailed all_errors), st)
  | p :: rest, st, all_errors =>
    let check := (st.circuit_breakers p.id).is_request_allowed now
    let st' := { st with
      circuit_breakers := fun x => if x = p.id then check.2 else st.circuit_breakers x }
    if check.1 then
      match providerFinalResult p with
      | .ok t =>
        if p.confidence_threshold ≤ t.confidence then
          (.ok t, recordProviderSuccess st' p.id)
        else
          transcribeLoop now rest (recordProviderFailure st' p.id now)
            (all_errors ++ [(p.id, .providerError "Low confidence")])
      | .error e =>
        transcribeLoop now rest (recordProviderFailure st' p.id now)
          (all_errors ++ [(p.id, e)])
    else
      transcribeLoop now rest st'
        (all_errors ++ [(p.id, .providerError "Circuit breaker open")])

/-- Model of `FailoverOrchestrator::transcribe`. -/
def FailoverOrchestrator.transcribe (st : FailoverOrchestrator) (now : Nat) :
    Except OrchestratorError Transcript × FailoverOrchestrator :=
  if st.providers.isEmpty then (.error .noProvidersAvailable, st)
  else transcribeLoop now st.providers st []

/-- Spec-side loop, written from the words of the failover claim: attempt
each provider in the given (already priority-sorted) order; return the
first transcript at or above the provider's confidence threshold,
recording a success; on a low-confidence `Ok` record a failure and a
`Low confidence` error entry and move on without retrying; on an error
record a failure and the error entry; when all providers are exhausted
return `AllProvidersFailed` with the per-provider last errors.  (No
circuit-breaker gate: the claim does not mention one.) -/
def claimFailoverLoop (now : Nat) :
    List ProviderConfig → FailoverOrchestrator → List (String × STTError) →
    Except OrchestratorError Transcript × FailoverOrchestrator
  | [], st, all_errors => (.error (.allProvidersFailed all_errors), st)
  | p :: rest, st, all_errors =>
    match providerFinalResult p with
    | .ok t =>
      if p.confidence_threshold ≤ t.confidence then
        (.ok t, recordProviderSuccess st p.id)
      else
        claimFailoverLoop now rest (recordProviderFailure st p.id now)
          (all_errors ++ [(p.id, .providerError "Low confidence")])
    | .error e =>
      claimFailoverLoop now rest (recordProviderFailure st p.id now)
        (all_errors ++ [(p.id, e)])

/-! ### Session data (src/src-tauri/src/session/segment.rs, audio/buffer.rs) -/

/-- Model of `AudioBuffer` (samples are i16 values as `Int`; the cached
`duration_secs` is a field like in the source, not an enforced invariant). -/
structure AudioBuffer where
  samples : List Int
  sample_rate : Nat
  channels : Nat
  duration_secs : ℚ
deriving DecidableEq, Repr

/-- Model of `AudioSegment`; the `timestamp : Instant` field is omitted
(it is written once at creation and never read by the modelled code). -/
structure AudioSegment where
  id : String
  transcript : Option Transcript
  sequence_number : Nat
  duration_secs : ℚ
deriving DecidableEq, Repr

/-! ### Stitcher (src/src-tauri/src/session/stitcher.rs) -/

/-- Model of the free function `is_punct`. -/
def is_punct (c : Char) : Bool := c = '.' || c = '!' || c = '?' || c = ','

/-- The sentence-ending punctuation set of `capitalize_sentences`
(`matches!(ch, '.' | '!' | '?')`). -/
def is_sentence_end (c : Char) : Bool := c = '.' || c = '!' || c = '?'

/-- ASCII alphabetic test: model of Rust `char::is_alphabetic` restricted
to ASCII (consistent with modelling `to_uppercase` as `asciiUpper`). -/
def isAsciiAlpha (c : Char) : Bool :=
  (65 ≤ c.toNat && c.toNat ≤ 90) || (97 ≤ c.toNat && c.toNat ≤ 122)

/-- The scanning loop of `collapse_spaces`; the flag is `in_space`. -/
def collapseAux : Bool → List Char → List Char
  | _, [] => []
  | in_space, ch :: rest =>
    if ch.isWhitespace then
      if in_space then collapseAux true rest else ' ' :: collapseAux true rest
    else ch :: collapseAux false rest

/-- Model of `collapse_spaces`. -/
def collapse_spaces (text : List Char) : List Char := collapseAux false text

/-- Model of `ensure_space_after_punct` (peeks at the next character
without consuming it). -/
def ensure_space_after_punct : List Char → List Char
  | [] => []
  | [ch] => [ch]
  | ch :: next :: rest =>
    if is_punct ch && !next.isWhitespace then
      ch :: ' ' :: ensure_space_after_punct (next :: rest)
    else ch :: ensure_space_after_punct (next :: rest)

/-- The `chars.peek()` test of `remove_space_before_punct`. -/
def headIsPunct : List Char → Bool
  | next :: _ => is_punct next
  | [] => false

/-- Model of `remove_space_before_punct`. -/
def remove_space_before_punct : List Char → List Char
  | [] => []
  | ch :: rest =>
    if ch.isWhitespace && headIsPunct rest then remove_space_before_punct rest
    else ch :: remove_space_before_punct rest

/-- The scanning loop of `capitalize_sentences`; the flag is
`capitalize_next`. -/
def capitalizeAux : Bool → List Char → List Char
  | _, [] => []
  | capitalize_next, ch :: rest =>
    if capitalize_next && isAsciiAlpha ch then asciiUpper ch :: capitalizeAux false rest
    else ch :: capitalizeAux (if is_sentence_end ch then true else capitalize_next) rest

/-- Model of `capitalize_sentences`. -/
def capitalize_sentences (text : List Char) : List Char := capitalizeAux true text

/-- Model of `str::trim` (drop leading and trailing whitespace). -/
def trimChars (text : List Char) : List Char :=
  ((text.dropWhile Char.isWhitespace).reverse.dropWhile Char.isWhitespace).reverse

/-- Model of `Stitcher::normalize_text`. -/
def normalize_text (text : List Char) : List Char :=
  let collapsed := collapse_spaces text
  let spaced := ensure_space_after_punct collapsed
  let cleaned := remove_space_before_punct spaced
  let capitalized := capitalize_sentences cleaned
  trimChars (collapse_spaces capitalized)

/-- Accumulator loop of `str::split_whitespace`: emits maximal non-empty
runs of non-whitespace characters. -/
def splitWsAux : List Char → List Char → List (List Char)
  | acc, [] => if acc.isEmpty then [] else [acc.reverse]
  | acc, c :: cs =>
    if c.isWhitespace then
      if acc.isEmpty then splitWsAux [] cs else acc.reverse :: splitWsAux [] cs
    else splitWsAux (c :: acc) cs

/-- Model of `str::split_whitespace` (collected to a vector of tokens). -/
def split_whitespace (l : List Char) : List (List Char) := splitWsAux [] l

/-- Last `n` elements of a list (`iter().rev().take(n).rev()`). -/
def lastN {α : Type} (n : Nat) (l : List α) : List α := l.drop (l.length - n)

/-- Rust `str::to_lowercase` on a token (ASCII model). -/
def lowerTok (t : List Char) : List Char := t.map asciiLower

/-- The `for n in (1..=max_check).rev()` search of `detect_overlap`. -/
def detectOverlapGo (previous current : List (List Char)) : Nat → Nat
  | 0 => 0
  | n + 1 =>
    let prev_tail := (lastN (n + 1) previous).map lowerTok
    let curr_head := (current.take (n + 1)).map lowerTok
    if prev_tail = curr_head then n + 1 else detectOverlapGo previous current n

/-- Model of `Stitcher::detect_overlap`. -/
def detect_overlap (previous current : List (List Char)) : Nat :=
  detectOverlapGo previous current (min 3 (min previous.length current.length))

/-- `words.join(" ")`: tokens joined by single spaces. -/
def joinSpace : List (List Char) → List Char
  | [] => []
  | [t] => t
  | t :: rest => t ++ ' ' :: joinSpace rest

/-- Model of `StitchError`. -/
inductive StitchError where
  | segmentNotTranscribed (id : String)
deriving DecidableEq, Repr

/-- The segment loop of `Stitcher::stitch_transcripts`, carrying
`full_text` and `previous_words`. -/
def stitchLoop : List AudioSegment → List Char → List (List Char) →
    Except StitchError (List Char)
  | [], full_text, _ => .ok full_text
  | segment :: rest, full_text, previous_words =>
    match segment.transcript with
    | none => .error (.segmentNotTranscribed segment.id)
    | some transcript =>
      let words := split_whitespace transcript.text
      let words :=
        if !previous_words.isEmpty && !words.isEmpty then
          let overlap_size := detect_overlap previous_words words
          if overlap_size > 0 then words.drop overlap_size else words
        else words
      let full_text := if !full_text.isEmpty && !words.isEmpty then full_text ++ [' ']
        else full_text
      let full_text := if !words.isEmpty then full_text ++ joinSpace words else full_text
      let previous_words := if !words.isEmpty then lastN 3 words else previous_words
      stitchLoop rest full_text previous_words

namespace Stitcher

/-- Model of `Stitcher::stitch_transcripts`. -/
def stitch_transcripts (segments : List AudioSegment) : Except StitchError (List Char) :=
  if segments.isEmpty then .ok []
  else (stitchLoop segments [] []).map normalize_text

end Stitcher

/-- The transcript text of a segment (meaningful when the segment carries
one). -/
def segmentText (s : AudioSegment) : List Char :=
  match s.transcript with
  | some t => t.text
  | none => []

/-- One step of the stitching algorithm as worded in the claim: trim the
overlap against the previous tail, append the survivors, and set the
previous tail to the last up-to-3 tokens of the current segment after
trimming (unconditionally). -/
def claimStitchStep (state : List (List Char) × List (List Char)) (text : List Char) :
    List (List Char) × List (List Char) :=
  let words := split_whitespace text
  let survivors :=
    if !state.2.isEmpty && !words.isEmpty then words.drop (detect_overlap state.2 words)
    else words
  (state.1 ++ survivors, lastN 3 survivors)

/-- The stitching algorithm as worded in the claim (tail updated
unconditionally), applied to the segment texts. -/
def claimStitch (texts : List (List Char)) : List Char :=
  normalize_text (joinSpace (texts.foldl claimStitchStep ([], [])).1)

/-- One step of the amended stitching algorithm: as `claimStitchStep`,
but when the current segment has no surviving tokens the previous tail
is retained (this is what the source does). -/
def amendedStitchStep (state : List (List Char) × List (List Char)) (text : List Char) :
    List (List Char) × List (List Char) :=
  let words := split_whitespace text
  let survivors :=
    if !state.2.isEmpty && !words.isEmpty then words.drop (detect_overlap state.2 words)
    else words
  (state.1 ++ survivors, if survivors.isEmpty then state.2 else lastN 3 survivors)

/-- The amended stitching algorithm applied to the segment texts. -/
def amendedStitch (texts : List (List Char)) : List Char :=
  normalize_text (joinSpace (texts.foldl amendedStitchStep ([], [])).1)

/-! ### Normalization invariants (scaffolding for the idempotence proof) -/

/-- Every whitespace character is a plain space. -/
def WS1 (l : List Char) : Prop := ∀ c ∈ l, c.isWhitespace = true → c = ' '

/-- No two adjacent whitespace characters. -/
def NoDbl (l : List Char) : Prop :=
  List.Chain' (fun a b => ¬(a.isWhitespace = true ∧ b.isWhitespace = true)) l

/-- Collapsed form: all whitespace is single spaces. -/
def NoDS (l : List Char) : Prop := WS1 l ∧ NoDbl l

/-- No whitespace immediately before punctuation. -/
def P1 (l : List Char) : Prop :=
  List.Chain' (fun a b => ¬(a.isWhitespace = true ∧ is_punct b = true)) l

/-- Punctuation is followed only by punctuation or whitespace. -/
def P2 (l : List Char) : Prop :=
  List.Chain' (fun a b => is_punct a = true → (is_punct b = true ∨ b.isWhitespace = true)) l

/-- The scan state of `capitalize_sentences` after consuming a list. -/
def capFlagAfter : Bool → List Char → Bool
  | flag, [] => flag
  | flag, c :: cs =>
    if flag && isAsciiAlpha c then capFlagAfter false cs
    else capFlagAfter (if is_sentence_end c then true else flag) cs

/-- The list is a fixed point of the `capitalize_sentences` scan started
with the given flag: every alphabetic character consumed while the flag
is set is already uppercase. -/
def capFix : Bool → List Char → Prop
  | _, [] => True
  | flag, c :: cs =>
    if flag && isAsciiAlpha c then asciiUpper c = c ∧ capFix false cs
    else capFix (if is_sentence_end c then true else flag) cs

/-- First and last characters (if any) are not whitespace. -/
def Trimmed (l : List Char) : Prop :=
  (∀ c, l.head? = some c → c.isWhitespace = false) ∧
    (∀ c, l.getLast? = some c → c.isWhitespace = false)

/-! ### Session stitcher (src/src-tauri/src/session/mod.rs)

`add_segment` interacts with three effects that are abstracted as
arguments: the energy metrics (computed by `audio_energy_metrics` with
`f32` arithmetic including a square root, which has no exact rational
model — the silence-gate claims only constrain the decision taken on the
metric values), the orchestrator call result, and the freshly generated
UUIDs. -/

/-- Model of `SessionError`. -/
inductive SessionError where
  | noActiveSession
  | emptySession
  | segmentTooLong (duration : ℚ) (max : ℚ)
  | segmentLimitReached (max : Nat)
  | stitchErr (detail : String)
  | transcriptionFailed (reason : String)
deriving DecidableEq, Repr

/-- Model of `SegmentResult`. -/
structure SegmentResult where
  segment_id : String
  transcript : Transcript
  is_final : Bool
deriving DecidableEq, Repr

/-- The state of `SessionStitcher` (the orchestrator handle is abstracted
out of the state; its answer is an argument of `add_segment`). -/
structure SessionStitcher where
  max_segment_duration_secs : ℚ
  segments : List AudioSegment
  current_session_id : Option String
  max_segments : Nat
deriving DecidableEq, Repr

/-- Model of `SessionStitcher::new`. -/
def SessionStitcher.new : SessionStitcher :=
  { max_segment_duration_secs := 59
    segments := []
    current_session_id := none
    max_segments := 100 }

/-- Model of the free function `derive_duration_secs`. -/
def derive_duration_secs (audio : AudioBuffer) : ℚ :=
  if audio.duration_secs > mkRat 5 100 then audio.duration_secs
  else
    let sample_rate : ℚ := audio.sample_rate
    let channels : ℚ := max audio.channels 1
    if sample_rate ≤ 0 then 0
    else (audio.samples.length : ℚ) / (sample_rate * channels)

/-- Model of `AudioEnergyMetrics`. The source field `speech_ratio` is
named `speech_frac` here. -/
structure AudioEnergyMetrics where
  rms : ℚ
  peak : ℚ
  speech_frac : ℚ
deriving DecidableEq, Repr

/-- Model of the free function `is_probable_silence`
(`rms < 0.0015 && peak < 0.010 && speech_ratio < 0.015`). -/
def is_probable_silence (metrics : AudioEnergyMetrics) : Bool :=
  metrics.rms < mkRat 15 10000 && metrics.peak < mkRat 10 1000 &&
    metrics.speech_frac < mkRat 15 1000

/-- Model of the free function `silence_gate_enabled`: the argument is
the value of the `ZENTRA_ENABLE_SILENCE_GATE` environment variable
(`none` when unset or unreadable). -/
def silence_gate_enabled (envValue : Option (List Char)) : Bool :=
  match envValue with
  | none => false
  | some value =>
    let v := (trimChars value).map asciiLower
    v = "1".toList || v = "true".toList || v = "yes".toList

/-- Model of the free function `map_orchestrator_error`. -/
def map_orchestrator_error : OrchestratorError → String
  | .noProvidersAvailable =>
    "Groq API key missing or invalid. Configure a valid key in Setup/Settings."
  | .allProvidersFailed errors =>
    if errors.any (fun pe => pe.2 == STTError.authenticationError) then
      "Groq authentication failed. Check if your API key is valid."
    else if errors.any (fun pe => pe.2 == STTError.rateLimitError) then
      "Groq rate limit reached. Please wait and try again."
    else if errors.any (fun pe => pe.2 == STTError.timeoutError) then
      "Groq request timed out. Check your connection and try again."
    else
      "Groq transcription failed. " ++
        String.intercalate (" | ")
          (errors.map (fun pe => pe.1 ++ ": " ++ pe.2.display))

/-- Model of `SessionStitcher::start_session`; `newSessionId` stands for
the generated `Uuid::new_v4`. -/
def SessionStitcher.start_session (st : SessionStitcher) (newSessionId : String) :
    SessionStitcher × Except SessionError String :=
  ({ st with current_session_id := some newSessionId, segments := [] }, .ok newSessionId)

/-- Model of `SessionStitcher::add_segment`.  `metrics` is the value of
`audio_energy_metrics(&audio)`, `gateEnv` the silence-gate environment
variable, `orchResult` the outcome of `orchestrator.transcribe(&audio)`
(consulted only on the non-gated path), and `newSegmentId` the generated
segment UUID.  Returns the post-call state and the command result. -/
def SessionStitcher.add_segment (st : SessionStitcher) (audio : AudioBuffer)
    (metrics : AudioEnergyMetrics) (gateEnv : Option (List Char))
    (orchResult : Except OrchestratorError Transcript) (newSegmentId : String) :
    SessionStitcher × Except SessionError SegmentResult :=
  if st.current_session_id.isNone then (st, .error .noActiveSession)
  else if st.segments.length ≥ st.max_segments then
    (st, .error (.segmentLimitReached st.max_segments))
  else
    let effective_duration_secs := derive_duration_secs audio
    if effective_duration_secs > st.max_segment_duration_secs then
      (st, .error (.segmentTooLong effective_duration_secs st.max_segment_duration_secs))
    else
      let sequence_number := st.segments.length + 1
      let segment : AudioSegment :=
        { id := newSegmentId, transcript := none, sequence_number := sequence_number
          duration_secs := effective_duration_secs }
      if silence_gate_enabled gateEnv && is_probable_silence metrics then
        let silent_transcript : Transcript :=
          { text := [], confidence := 0, language := none
            duration_secs := effective_duration_secs, provider := "SilenceGate" }
        let segment := { segment with transcript := some silent_transcript }
        ({ st with segments := st.segments ++ [segment] },
         .ok { segment_id := segment.id, transcript := silent_transcript, is_final := false })
      else
        match orchResult with
        | .ok transcript =>
          let segment := { segment with transcript := some transcript }
          ({ st with segments := st.segments ++ [segment] },
           .ok { segment_id := segment.id, transcript := transcript, is_final := false })
        | .error e =>
          (st, .error (.transcriptionFailed (map_orchestrator_error e)))

/-! ### WAV encoding (src/src-tauri/src/stt/groq.rs) -/

/-- Truncation toward zero of a rational: model of Rust's `as i16` cast
applied to an (already clamped, hence in-range) float. -/
def ratTrunc (q : ℚ) : Int := if q ≥ 0 then ⌊q⌋ else -⌊-q⌋

/-- `sample.clamp(i16::MIN as f32, i16::MAX as f32) as i16`. -/
def clampI16 (q : ℚ) : Int := ratTrunc (max (-32768) (min q 32767))

/-- Model of `GroqAdapter::downmix_to_mono` (per-frame channel average,
computed over `f32`, modelled in `ℚ`).  In-bounds indexing is modelled by
`getD _ 0`. -/
def downmix_to_mono (samples : List Int) (channels : Nat) : List ℚ :=
  if channels ≤ 1 then samples.map (fun s => (Int.cast s : ℚ))
  else
    let ch := channels
    let frame_count := samples.length / ch
    (List.range frame_count).map (fun frame_idx =>
      (((List.range ch).map
          (fun channel_idx => ((samples.getD (frame_idx * ch + channel_idx) 0 : Int) : ℚ))).sum)
        / (ch : ℚ))

/-- Model of `GroqAdapter::resample_linear` (f64 positions modelled in
`ℚ`; `round` is half-away-from-zero, which on the non-negative values
occurring here agrees with Mathlib's `round`). -/
def resample_linear (input : List ℚ) (source_rate target_rate : Nat) : List Int :=
  if input.isEmpty then []
  else if source_rate = target_rate then input.map clampI16
  else
    let out_len := max (round ((input.length : ℚ) * target_rate / source_rate)).toNat 1
    (List.range out_len).map (fun out_idx =>
      let src_pos : ℚ := (out_idx : ℚ) * source_rate / target_rate
      let left_idx := (⌊src_pos⌋).toNat
      let right_idx := min (left_idx + 1) (input.length - 1)
      let frac : ℚ := src_pos - (left_idx : ℚ)
      clampI16 (input.getD left_idx 0 * (1 - frac) + input.getD right_idx 0 * frac))

/-- Little-endian bytes of a `u16` value (`to_le_bytes`). -/
def le16 (n : Nat) : List Nat := [n % 256, n / 256 % 256]

/-- Little-endian bytes of a `u32` value (`to_le_bytes`). -/
def le32 (n : Nat) : List Nat :=
  [n % 256, n / 256 % 256, n / 65536 % 256, n / 16777216 % 256]

/-- The `as u32` cast (wrapping). -/
def u32Mod (n : Nat) : Nat := n % 2 ^ 32

/-- The `u16` bit pattern of an `i16` sample (`i16::to_le_bytes` two's
complement). -/
def i16ToU16 (s : Int) : Nat := (s.emod 65536).toNat

/-- The downmixed and resampled sample vector (`normalized` in the
source). -/
def encodedSamples (audio : AudioBuffer) : List Int :=
  resample_linear (downmix_to_mono audio.samples (max audio.channels 1))
    (max audio.sample_rate 1) 16000

/-- The byte vector built by `GroqAdapter::to_wav_bytes` on the non-empty
path (bytes as `Nat` values < 256).  Constants from the source:
`TARGET_SAMPLE_RATE = 16_000`, `TARGET_CHANNELS = 1`, fmt chunk size 16,
PCM format tag 1, `byte_rate = 16000 * 1 * 2`, block align `1 * 2`, 16
bits per sample; `file_size = 36 + 2·len` and `data_size = 2·len` are
written through `as u32` casts. -/
def wavShell (file_size data_size : Nat) (pcm : List Nat) : List Nat :=
  [82, 73, 70, 70] ++ le32 file_size ++ [87, 65, 86, 69] ++
    [102, 109, 116, 32] ++ le32 16 ++ le16 1 ++ le16 1 ++ le32 16000 ++
    le32 (16000 * 1 * 2) ++ le16 (1 * 2) ++ le16 16 ++ [100, 97, 116, 97] ++
    le32 data_size ++ pcm

def wavPayload (audio : AudioBuffer) : List Nat :=
  let normalized := encodedSamples audio
  wavShell (u32Mod (36 + normalized.length * 2)) (u32Mod (normalized.length * 2))
    ((normalized.map (fun s => le16 (i16ToU16 s))).flatten)

/-- Model of `GroqAdapter::to_wav_bytes`. -/
def to_wav_bytes (audio : AudioBuffer) : Except STTError (List Nat) :=
  if audio.samples.isEmpty then .error .invalidAudio
  else .ok (wavPayload audio)

/-- Byte read of a little-endian `u16` field at an offset. -/
def readLE16 (bytes : List Nat) (off : Nat) : Nat :=
  bytes.getD off 0 + 256 * bytes.getD (off + 1) 0

/-- Byte read of a little-endian `u32` field at an offset. -/
def readLE32 (bytes : List Nat) (off : Nat) : Nat :=
  bytes.getD off 0 + 256 * bytes.getD (off + 1) 0 + 65536 * bytes.getD (off + 2) 0 +
    16777216 * bytes.getD (off + 3) 0

/-! ## Lemmas -/

/-! ### Character lemmas -/

theorem char_toNat_ofNat (n : Nat) (h : n.isValidChar) : (Char.ofNat n).toNat = n := by
  simp [Char.ofNat, dif_pos h, Char.ofNatAux, Char.toNat, UInt32.toNat, BitVec.toNat_ofNatLt]

theorem asciiUpper_of_not (c : Char) (h : ¬(97 ≤ c.toNat ∧ c.toNat ≤ 122)) :
    asciiUpper c = c := by
  simp only [asciiUpper, if_neg h]

theorem asciiUpper_toNat (c : Char) (h : 97 ≤ c.toNat ∧ c.toNat ≤ 122) :
    (asciiUpper c).toNat = c.toNat - 32 := by
  have hv : (c.toNat - 32).isValidChar := by
    constructor
    omega
  simp [asciiUpper, if_pos h, char_toNat_ofNat _ hv]

theorem asciiUpper_idem (c : Char) : asciiUpper (asciiUpper c) = asciiUpper c := by
  by_cases h : 97 ≤ c.toNat ∧ c.toNat ≤ 122
  · have h2 := asciiUpper_toNat c h
    exact asciiUpper_of_not _ (by omega)
  · rw [asciiUpper_of_not c h, asciiUpper_of_not c h]

theorem toNat_eq_of_char_eq {c d : Char} (h : c = d) : c.toNat = d.toNat := by rw [h]

theorem isAsciiAlpha_asciiUpper (c : Char) : isAsciiAlpha (asciiUpper c) = isAsciiAlpha c := by
  by_cases h : 97 ≤ c.toNat ∧ c.toNat ≤ 122
  · have h2 := asciiUpper_toNat c h
    have l : isAsciiAlpha (asciiUpper c) = true := by
      simp only [isAsciiAlpha, h2, Bool.or_eq_true, Bool.and_eq_true, decide_eq_true_eq]
      omega
    have r : isAsciiAlpha c = true := by
      simp only [isAsciiAlpha, Bool.or_eq_true, Bool.and_eq_true, decide_eq_true_eq]
      omega
    rw [l, r]
  · rw [asciiUpper_of_not c h]

theorem isWhitespace_eq_false_of_alpha (c : Char) (h : isAsciiAlpha c = true) :
    c.isWhitespace = false := by
  have hn : (65 ≤ c.toNat ∧ c.toNat ≤ 90) ∨ (97 ≤ c.toNat ∧ c.toNat ≤ 122) := by
    simp only [isAsciiAlpha, Bool.or_eq_true, Bool.and_eq_true, decide_eq_true_eq] at h
    exact h
  simp only [Char.isWhitespace, Bool.or_eq_false_iff, decide_eq_false_iff_not]
  refine ⟨⟨⟨?_, ?_⟩, ?_⟩, ?_⟩ <;> intro he <;>
    simpa [toNat_eq_of_char_eq he] using hn

theorem is_punct_eq_false_of_alpha (c : Char) (h : isAsciiAlpha c = true) :
    is_punct c = false := by
  have hn : (65 ≤ c.toNat ∧ c.toNat ≤ 90) ∨ (97 ≤ c.toNat ∧ c.toNat ≤ 122) := by
    simp only [isAsciiAlpha, Bool.or_eq_true, Bool.and_eq_true, decide_eq_true_eq] at h
    exact h
  simp only [is_punct, Bool.or_eq_false_iff, decide_eq_false_iff_not]
  refine ⟨⟨⟨?_, ?_⟩, ?_⟩, ?_⟩ <;> intro he <;>
    simpa [toNat_eq_of_char_eq he] using hn

theorem is_sentence_end_eq_false_of_alpha (c : Char) (h : isAsciiAlpha c = true) :
    is_sentence_end c = false := by
  have hn : (65 ≤ c.toNat ∧ c.toNat ≤ 90) ∨ (97 ≤ c.toNat ∧ c.toNat ≤ 122) := by
    simp only [isAsciiAlpha, Bool.or_eq_true, Bool.and_eq_true, decide_eq_true_eq] at h
    exact h
  simp only [is_sentence_end, Bool.or_eq_false_iff, decide_eq_false_iff_not]
  refine ⟨⟨?_, ?_⟩, ?_⟩ <;> intro he <;>
    simpa [toNat_eq_of_char_eq he] using hn

/-! ### C4: retry policy -/

/-- C4 (counterexample to the claim as stated): the delay before retry 63
is not `base_delay × 2^63 = 2^64` seconds — the u64 `saturating_mul`
saturates it at `2^64 - 1`. -/
theorem C4_retry_policy_cex :
    (RetryPolicy.new 255).wait_delay_secs 63 ≠ 2 * 2 ^ 63 ∧
      (RetryPolicy.new 255).wait_delay_secs 63 = 2 ^ 64 - 1 := by
  constructor
  · decide
  · decide

/-- C4 (amended): `should_retry(attempt, error)` holds exactly when
`attempt < max_retries` and the error is retryable; the retryable errors
are exactly `NetworkError`, `TimeoutError` and `RateLimitError`; the
delay slept before 0-indexed retry `k` is `2 × 2^k` seconds saturated at
`u64::MAX` (so exactly `base_delay × 2^k` with `base_delay = 2 s` for
every `k ≤ 62`), bounded below by 1 s. -/
theorem C4_retry_policy :
    (∀ (maxRetries attempt : Nat) (e : STTError),
      (RetryPolicy.new maxRetries).should_retry attempt e = true ↔
        attempt < maxRetries ∧ e.is_retryable = true) ∧
    (∀ e : STTError, e.is_retryable = true ↔
      ((∃ d, e = .networkError d) ∨ e = .timeoutError ∨ e = .rateLimitError)) ∧
    (∀ maxRetries k : Nat,
      (RetryPolicy.new maxRetries).wait_delay_secs k = max (min (2 * 2 ^ k) u64Max) 1 ∧
      (k ≤ 62 → (RetryPolicy.new maxRetries).wait_delay_secs k = 2 * 2 ^ k) ∧
      1 ≤ (RetryPolicy.new maxRetries).wait_delay_secs k) := by
  refine ⟨?_, ?_, ?_⟩
  · intro maxRetries attempt e
    simp only [RetryPolicy.should_retry, RetryPolicy.new]
    split
    · rename_i h
      constructor
      · intro hf
        exact absurd hf (by simp)
      · rintro ⟨hlt, _⟩
        omega
    · rename_i h
      constructor
      · intro hr
        exact ⟨by omega, hr⟩
      · rintro ⟨_, hr⟩
        exact hr
  · intro e
    cases e <;> simp [STTError.is_retryable]
  · intro maxRetries k
    have hM : u64Max = 2 ^ 64 - 1 := rfl
    have hd : (RetryPolicy.new maxRetries).wait_delay_secs k =
        max (min (2 * min (2 ^ k) u64Max) u64Max) 1 := rfl
    refine ⟨?_, ?_, ?_⟩
    · rw [hd, hM]
      generalize (2 : Nat) ^ k = t
      omega
    · intro hk
      have hb : 2 ^ k ≤ 2 ^ 62 := Nat.pow_le_pow_right (by norm_num) hk
      have hc : (2 : Nat) ^ 62 = 4611686018427387904 := by norm_num
      rw [hc] at hb
      have h1 : 0 < 2 ^ k := pow_pos (by norm_num) k
      rw [hd, hM]
      generalize hgen : (2 : Nat) ^ k = t at hb h1 ⊢
      omega
    · rw [hd]
      exact Nat.le_max_right _ 1

/-- C4 witness: at retry index 5 the slept delay is exactly
`2 × 2^5 = 64` seconds. -/
theorem C4_retry_policy_witness :
    5 ≤ 62 ∧ (RetryPolicy.new 3).wait_delay_secs 5 = 2 * 2 ^ 5 :=
  ⟨by decide, (C4_retry_policy.2.2 3 5).2.1 (by decide)⟩

/-! ### C3: circuit breaker -/

/-- C3: the per-provider circuit breaker is the claimed state machine.
Conjuncts: (1) `new` has `trip_threshold = 3`, `trip_window = 300 s`,
`cooldown = 600 s` and starts Closed with zero failures; (2)
`record_failure` updates `last_failure_time`, increments the failure
count (u8-saturating) when the previous failure is within the trip
window, resets it to 1 otherwise (or when there was none), and
transitions to Open exactly when the new count reaches the threshold;
(3) `is_request_allowed` permits Closed and HalfOpen unchanged, and in
Open refuses until the cooldown has elapsed, at which point it moves to
HalfOpen and permits; (4) `record_success` zeroes the count, clears the
last-failure time and closes the breaker; (5) after
`[ok, ok, fail, fail, fail]` within 1 s the breaker is Open, still
refusing just before the cooldown ends and allowing a HalfOpen probe
once `now - tripped_at ≥ cooldown`. -/
theorem C3_circuit_breaker :
    (CircuitBreaker.new.trip_threshold = 3 ∧ CircuitBreaker.new.trip_window = 300 ∧
      CircuitBreaker.new.cooldown = 600 ∧ CircuitBreaker.new.state = .closed ∧
      CircuitBreaker.new.failure_count = 0 ∧ CircuitBreaker.new.last_failure_time = none) ∧
    (∀ (cb : CircuitBreaker) (now : Nat),
      (cb.record_failure now).last_failure_time = some now ∧
      (∀ last, cb.last_failure_time = some last → now - last ≤ cb.trip_window →
        (cb.record_failure now).failure_count = min (cb.failure_count + 1) 255) ∧
      (∀ last, cb.last_failure_time = some last → now - last > cb.trip_window →
        (cb.record_failure now).failure_count = 1) ∧
      (cb.last_failure_time = none → (cb.record_failure now).failure_count = 1) ∧
      ((cb.record_failure now).failure_count ≥ cb.trip_threshold →
        (cb.record_failure now).state = .open now) ∧
      ((cb.record_failure now).failure_count < cb.trip_threshold →
        (cb.record_failure now).state = cb.state)) ∧
    (∀ (cb : CircuitBreaker) (now : Nat),
      (cb.state = .closed → cb.is_request_allowed now = (true, cb)) ∧
      (cb.state = .halfOpen → cb.is_request_allowed now = (true, cb)) ∧
      (∀ t, cb.state = .open t → now - t ≥ cb.cooldown →
        cb.is_request_allowed now = (true, { cb with state := .halfOpen })) ∧
      (∀ t, cb.state = .open t → now - t < cb.cooldown →
        cb.is_request_allowed now = (false, cb))) ∧
    (∀ cb : CircuitBreaker,
      cb.record_success.failure_count = 0 ∧ cb.record_success.last_failure_time = none ∧
      cb.record_success.state = .closed) ∧
    (((CircuitBreaker.new.record_success.record_success.record_failure 0).record_failure
        1).record_failure 1 =
      { state := .open 1, failure_count := 3, last_failure_time := some 1,
        trip_threshold := 3, trip_window := 300, cooldown := 600 } ∧
      ((((CircuitBreaker.new.record_success.record_success.record_failure 0).record_failure
        1).record_failure 1).is_request_allowed 600).1 = false ∧
      ((((CircuitBreaker.new.record_success.record_success.record_failure 0).record_failure
        1).record_failure 1).is_request_allowed 601) =
        (true,
          { state := .halfOpen, failure_count := 3, last_failure_time := some 1,
            trip_threshold := 3, trip_window := 300, cooldown := 600 })) := by
  refine ⟨by decide, ?_, ?_, ?_, by decide, by decide, by decide⟩
  · intro cb now
    refine ⟨?_, ?_, ?_, ?_, ?_, ?_⟩
    · simp only [CircuitBreaker.record_failure]
      split <;> rfl
    · intro last hl hw
      simp only [CircuitBreaker.record_failure, hl, if_neg (by omega : ¬ now - last > cb.trip_window)]
      split <;> rfl
    · intro last hl hw
      simp only [CircuitBreaker.record_failure, hl, if_pos hw]
      split <;> rfl
    · intro hl
      simp only [CircuitBreaker.record_failure, hl]
      split <;> rfl
    · intro hge
      have hfc : (cb.record_failure now).failure_count =
          (match cb.last_failure_time with
            | some last_fail =>
              if now - last_fail > cb.trip_window then 1 else min (cb.failure_count + 1) 255
            | none => 1) := by
        simp only [CircuitBreaker.record_failure]
        split <;> rfl
      rw [hfc] at hge
      simp only [CircuitBreaker.record_failure]
      rw [if_pos hge]
    · intro hlt
      have hfc : (cb.record_failure now).failure_count =
          (match cb.last_failure_time with
            | some last_fail =>
              if now - last_fail > cb.trip_window then 1 else min (cb.failure_count + 1) 255
            | none => 1) := by
        simp only [CircuitBreaker.record_failure]
        split <;> rfl
      rw [hfc] at hlt
      simp only [CircuitBreaker.record_failure]
      rw [if_neg (by omega)]
  · intro cb now
    refine ⟨?_, ?_, ?_, ?_⟩
    · intro h
      simp [CircuitBreaker.is_request_allowed, h]
    · intro h
      simp [CircuitBreaker.is_request_allowed, h]
    · intro t h hge
      simp [CircuitBreaker.is_request_allowed, h, if_pos hge]
    · intro t h hlt
      simp [CircuitBreaker.is_request_allowed, h, if_neg (by omega : ¬ now - t ≥ cb.cooldown)]
  · intro cb
    exact ⟨rfl, rfl, rfl⟩

/-- C3 witness: the within-window increment rule applied to a concrete
breaker (one failure at time 10, next at time 20, window 300). -/
theorem C3_circuit_breaker_witness :
    (CircuitBreaker.new.record_failure 10).last_failure_time = some 10 ∧
      20 - 10 ≤ (CircuitBreaker.new.record_failure 10).trip_window ∧
      ((CircuitBreaker.new.record_failure 10).record_failure 20).failure_count =
        min ((CircuitBreaker.new.record_failure 10).failure_count + 1) 255 :=
  ⟨by decide, by decide,
    (C3_circuit_breaker.2.1 (CircuitBreaker.new.record_failure 10) 20).2.1 10 (by decide)
      (by decide)⟩

/-! ### C10: start_session -/

/-- C10: `start_session` succeeds from every session state (active or
idle, with or without accumulated segments), returns the freshly
generated session id, installs it as the current session, and discards
every previously added segment without reporting any error. -/
theorem C10_start_session (st : SessionStitcher) (newSessionId : String) :
    (st.start_session newSessionId).2 = .ok newSessionId ∧
      (st.start_session newSessionId).1.segments = [] ∧
      (st.start_session newSessionId).1.current_session_id = some newSessionId ∧
      (st.start_session newSessionId).1.max_segments = st.max_segments ∧
      (st.start_session newSessionId).1.max_segment_duration_secs =
        st.max_segment_duration_secs :=
  ⟨rfl, rfl, rfl, rfl, rfl⟩

/-! ### C8: user-facing reason mapping -/

/-- C8 (counterexample to the claim as stated): an
`AllProvidersFailed` containing an authentication error maps to
`"Groq authentication failed. Check if your API key is valid."`, not to
the claimed string `"Authentication failed. Check your API key."`. -/
theorem C8_reason_mapping_cex :
    map_orchestrator_error (.allProvidersFailed [("groq", .authenticationError)]) ≠
        "Authentication failed. Check your API key." ∧
      map_orchestrator_error (.allProvidersFailed [("groq", .authenticationError)]) =
        "Groq authentication failed. Check if your API key is valid." := by
  constructor
  · decide
  · rfl

/-- C8 (amended): the reason string for `AllProvidersFailed` is decided
by the claimed priority — any authentication error first, then any rate
limit, then any timeout, then the fallback concatenation of
`provider: error` entries joined by `" | "` — but the four strings are
`"Groq authentication failed. Check if your API key is valid."`,
`"Groq rate limit reached. Please wait and try again."`,
`"Groq request timed out. Check your connection and try again."`, and
`"Groq transcription failed. "` followed by the joined entries. -/
theorem C8_reason_mapping (errors : List (String × STTError)) :
    ((∃ pe ∈ errors, pe.2 = STTError.authenticationError) →
      map_orchestrator_error (.allProvidersFailed errors) =
        "Groq authentication failed. Check if your API key is valid.") ∧
    (¬(∃ pe ∈ errors, pe.2 = STTError.authenticationError) →
      (∃ pe ∈ errors, pe.2 = STTError.rateLimitError) →
      map_orchestrator_error (.allProvidersFailed errors) =
        "Groq rate limit reached. Please wait and try again.") ∧
    (¬(∃ pe ∈ errors, pe.2 = STTError.authenticationError) →
      ¬(∃ pe ∈ errors, pe.2 = STTError.rateLimitError) →
      (∃ pe ∈ errors, pe.2 = STTError.timeoutError) →
      map_orchestrator_error (.allProvidersFailed errors) =
        "Groq request timed out. Check your connection and try again.") ∧
    (¬(∃ pe ∈ errors, pe.2 = STTError.authenticationError) →
      ¬(∃ pe ∈ errors, pe.2 = STTError.rateLimitError) →
      ¬(∃ pe ∈ errors, pe.2 = STTError.timeoutError) →
      map_orchestrator_error (.allProvidersFailed errors) =
        "Groq transcription failed. " ++
          String.intercalate (" | ")
            (errors.map (fun pe => pe.1 ++ ": " ++ pe.2.display))) := by
  have hany : ∀ e : STTError, (errors.any (fun pe => pe.2 == e) = true) ↔
      (∃ pe ∈ errors, pe.2 = e) := by
    intro e
    rw [List.any_eq_true]
    constructor
    · rintro ⟨pe, hmem, hbeq⟩
      exact ⟨pe, hmem, by simpa using hbeq⟩
    · rintro ⟨pe, hmem, heq⟩
      exact ⟨pe, hmem, by simpa using heq⟩
  refine ⟨?_, ?_, ?_, ?_⟩
  · intro hauth
    simp only [map_orchestrator_error, if_pos ((hany _).2 hauth)]
  · intro hnauth hrate
    simp only [map_orchestrator_error,
      if_neg (fun hc => hnauth ((hany _).1 hc)), if_pos ((hany _).2 hrate)]
  · intro hnauth hnrate htime
    simp only [map_orchestrator_error,
      if_neg (fun hc => hnauth ((hany _).1 hc)),
      if_neg (fun hc => hnrate ((hany _).1 hc)), if_pos ((hany _).2 htime)]
  · intro hnauth hnrate hntime
    simp only [map_orchestrator_error,
      if_neg (fun hc => hnauth ((hany _).1 hc)),
      if_neg (fun hc => hnrate ((hany _).1 hc)),
      if_neg (fun hc => hntime ((hany _).1 hc))]

/-- C8 witness: the rate-limit rule on a concrete error list without
authentication errors. -/
theorem C8_reason_mapping_witness :
    map_orchestrator_error
        (.allProvidersFailed [("groq", .rateLimitError), ("vosk", .timeoutError)]) =
      "Groq rate limit reached. Please wait and try again." :=
  (C8_reason_mapping [("groq", .rateLimitError), ("vosk", .timeoutError)]).2.1
    (by decide) (by decide)

/-! ### C2: add_segment validation -/

/-- C2: `add_segment` rejects with `NoActiveSession` when no session is
active, with `SegmentLimitReached` when the session already holds 100
segments, and with `SegmentTooLong` when the effective duration exceeds
59.0 s; a duration of exactly 59.0 is accepted; and on every failure path
(including `TranscriptionFailed` from the orchestrator) the post-call
state — in particular the segment list — is unchanged.  The 100 / 59.0
limits are the `max_segments` / `max_segment_duration_secs` fields, which
`SessionStitcher::new` sets and nothing ever mutates. -/
theorem C2_add_segment_validation (st : SessionStitcher) (audio : AudioBuffer)
    (metrics : AudioEnergyMetrics) (gateEnv : Option (List Char))
    (orchResult : Except OrchestratorError Transcript) (newSegmentId : String) :
    (st.current_session_id = none →
      st.add_segment audio metrics gateEnv orchResult newSegmentId =
        (st, .error .noActiveSession)) ∧
    (st.current_session_id.isSome = true → st.max_segments = 100 →
      st.segments.length ≥ 100 →
      st.add_segment audio metrics gateEnv orchResult newSegmentId =
        (st, .error (.segmentLimitReached 100))) ∧
    (st.current_session_id.isSome = true → st.max_segments = 100 →
      st.max_segment_duration_secs = 59 → st.segments.length < 100 →
      derive_duration_secs audio > 59 →
      st.add_segment audio metrics gateEnv orchResult newSegmentId =
        (st, .error (.segmentTooLong (derive_duration_secs audio) 59))) ∧
    (st.current_session_id.isSome = true → st.max_segments = 100 →
      st.max_segment_duration_secs = 59 → st.segments.length < 100 →
      derive_duration_secs audio = 59 → silence_gate_enabled gateEnv = false →
      ∀ tr : Transcript,
        st.add_segment audio metrics gateEnv (.ok tr) newSegmentId =
          ({ st with segments := st.segments ++
              [{ id := newSegmentId, transcript := some tr
                 sequence_number := st.segments.length + 1
                 duration_secs := derive_duration_secs audio }] },
           .ok { segment_id := newSegmentId, transcript := tr, is_final := false })) ∧
    (∀ err : SessionError,
      (st.add_segment audio metrics gateEnv orchResult newSegmentId).2 = .error err →
      (st.add_segment audio metrics gateEnv orchResult newSegmentId).1 = st) := by
  refine ⟨?_, ?_, ?_, ?_, ?_⟩
  · intro h
    simp [SessionStitcher.add_segment, h]
  · intro hs hm hlen
    rcases Option.isSome_iff_exists.1 hs with ⟨v, hv⟩
    simp only [SessionStitcher.add_segment, hv, hm, Option.isNone_some]
    rw [if_neg (by simp), if_pos hlen]
  · intro hs hm hd hlen hdur
    rcases Option.isSome_iff_exists.1 hs with ⟨v, hv⟩
    simp only [SessionStitcher.add_segment, hv, hm, hd, Option.isNone_some]
    rw [if_neg (by simp), if_neg (by omega), if_pos hdur]
  · intro hs hm hd hlen hdur hgate tr
    rcases Option.isSome_iff_exists.1 hs with ⟨v, hv⟩
    simp only [SessionStitcher.add_segment, hv, hm, hd, hdur, Option.isNone_some, hgate,
      Bool.false_and]
    rw [if_neg (by simp), if_neg (by omega), if_neg (by norm_num), if_neg (by simp)]
  · intro err
    simp only [SessionStitcher.add_segment]
    split
    · exact fun _ => rfl
    · split
      · exact fun _ => rfl
      · split
        · exact fun _ => rfl
        · split
          · intro h
            exact absurd h (by simp)
          · split
            · intro h
              exact absurd h (by simp)
            · exact fun _ => rfl

/-- C2 witness: with an active empty session, a buffer whose cached
duration is 59.01 s is rejected as too long. -/
theorem C2_add_segment_validation_witness :
    derive_duration_secs
        { samples := [], sample_rate := 16000, channels := 1
          duration_secs := mkRat 5901 100 } > 59 ∧
      SessionStitcher.add_segment
          { max_segment_duration_secs := 59, segments := []
            current_session_id := some "s", max_segments := 100 }
          { samples := [], sample_rate := 16000, channels := 1
            duration_secs := mkRat 5901 100 }
          { rms := 1, peak := 1, speech_frac := 1 } none (.error .noProvidersAvailable) "id" =
        ({ max_segment_duration_secs := 59, segments := []
           current_session_id := some "s", max_segments := 100 },
          .error (.segmentTooLong
            (derive_duration_secs
              { samples := [], sample_rate := 16000, channels := 1
                duration_secs := mkRat 5901 100 }) 59)) :=
  ⟨by decide,
    (C2_add_segment_validation
        { max_segment_duration_secs := 59, segments := []
          current_session_id := some "s", max_segments := 100 }
        { samples := [], sample_rate := 16000, channels := 1
          duration_secs := mkRat 5901 100 }
        { rms := 1, peak := 1, speech_frac := 1 } none (.error .noProvidersAvailable)
        "id").2.2.1 (by decide) (by decide) (by decide) (by decide) (by decide)⟩

/-! ### C6: silence gate -/

/-- C6: the silence gate fires exactly when the environment flag is a
recognized truthy value (`"1"`, `"true"`, `"yes"` after trimming,
ASCII-case-insensitive; off when unset or anything else) and the energy
metrics satisfy `rms < 0.0015`, `peak < 0.010` and
`speech_ratio < 0.015`; on a gated segment `add_segment` appends a
segment carrying a synthetic transcript with empty text, confidence 0
and provider `"SilenceGate"`, and returns that result for every possible
orchestrator answer (i.e. without consulting the orchestrator). -/
theorem C6_silence_gate (st : SessionStitcher) (audio : AudioBuffer)
    (metrics : AudioEnergyMetrics) (newSegmentId : String) :
    (∀ gateEnv : Option (List Char), silence_gate_enabled gateEnv = true ↔
      ∃ s, gateEnv = some s ∧
        ((trimChars s).map asciiLower = "1".toList ∨
         (trimChars s).map asciiLower = "true".toList ∨
         (trimChars s).map asciiLower = "yes".toList)) ∧
    (∀ m : AudioEnergyMetrics, is_probable_silence m = true ↔
      (m.rms < mkRat 15 10000 ∧ m.peak < mkRat 10 1000 ∧ m.speech_frac < mkRat 15 1000)) ∧
    (∀ gateEnv : Option (List Char),
      st.current_session_id.isSome = true →
      st.segments.length < st.max_segments →
      ¬ derive_duration_secs audio > st.max_segment_duration_secs →
      silence_gate_enabled gateEnv = true →
      is_probable_silence metrics = true →
      ∀ orchResult : Except OrchestratorError Transcript,
        st.add_segment audio metrics gateEnv orchResult newSegmentId =
          ({ st with segments := st.segments ++
              [{ id := newSegmentId
                 transcript := some
                   { text := [], confidence := 0, language := none
                     duration_secs := derive_duration_secs audio, provider := "SilenceGate" }
                 sequence_number := st.segments.length + 1
                 duration_secs := derive_duration_secs audio }] },
            .ok { segment_id := newSegmentId
                  transcript :=
                    { text := [], confidence := 0, language := none
                      duration_secs := derive_duration_secs audio, provider := "SilenceGate" }
                  is_final := false })) := by
  refine ⟨?_, ?_, ?_⟩
  · intro gateEnv
    cases gateEnv with
    | none => simp [silence_gate_enabled]
    | some s =>
      simp only [silence_gate_enabled, Bool.or_eq_true, decide_eq_true_eq, Option.some.injEq]
      aesop
  · intro m
    simp [is_probable_silence, Bool.and_eq_true, decide_eq_true_eq, and_assoc]
  · intro gateEnv hs hlen hdur hgate hsil orchResult
    rcases Option.isSome_iff_exists.1 hs with ⟨v, hv⟩
    simp only [SessionStitcher.add_segment, hv, Option.isNone_some, hgate, hsil, Bool.and_self]
    rw [if_neg (by simp), if_neg (by omega), if_neg hdur, if_pos trivial]

/-- C6 witness: with the gate enabled via `"1"` and an all-zero metrics
triple, a 1 s segment is appended with the synthetic `SilenceGate`
transcript regardless of the orchestrator answer. -/
theorem C6_silence_gate_witness :
    SessionStitcher.add_segment
        { max_segment_duration_secs := 59, segments := []
          current_session_id := some "s", max_segments := 100 }
        { samples := [0], sample_rate := 16000, channels := 1, duration_secs := 1 }
        { rms := 0, peak := 0, speech_frac := 0 } (some ("1".toList))
        (.error .noProvidersAvailable) "id" =
      ({ max_segment_duration_secs := 59
         segments :=
           [{ id := "id"
              transcript := some
                { text := [], confidence := 0, language := none
                  duration_secs := derive_duration_secs
                    { samples := [0], sample_rate := 16000, channels := 1, duration_secs := 1 }
                  provider := "SilenceGate" }
              sequence_number := 1
              duration_secs := derive_duration_secs
                { samples := [0], sample_rate := 16000, channels := 1, duration_secs := 1 } }]
         current_session_id := some "s", max_segments := 100 },
        .ok { segment_id := "id"
              transcript :=
                { text := [], confidence := 0, language := none
                  duration_secs := derive_duration_secs
                    { samples := [0], sample_rate := 16000, channels := 1, duration_secs := 1 }
                  provider := "SilenceGate" }
              is_final := false }) :=
  (C6_silence_gate
      { max_segment_duration_secs := 59, segments := []
        current_session_id := some "s", max_segments := 100 }
      { samples := [0], sample_rate := 16000, channels := 1, duration_secs := 1 }
      { rms := 0, peak := 0, speech_frac := 0 } "id").2.2 (some ("1".toList)) (by decide)
    (by decide) (by decide) (by decide) (by decide) (.error .noProvidersAvailable)

/-! ### C1: failover orchestrator -/

theorem insertByPriority_perm (p : ProviderConfig) (l : List ProviderConfig) :
    List.Perm (insertByPriority p l) (p :: l) := by
  induction l with
  | nil => simp [insertByPriority]
  | cons q qs ih =>
    rw [insertByPriority]
    by_cases hle : p.priority ≤ q.priority
    · rw [if_pos hle]
    · rw [if_neg hle]
      exact (List.Perm.cons q ih).trans (List.Perm.swap _ _ _)

theorem insertByPriority_pairwise (p : ProviderConfig) (l : List ProviderConfig)
    (h : List.Pairwise (fun a b => a.priority ≤ b.priority) l) :
    List.Pairwise (fun a b => a.priority ≤ b.priority) (insertByPriority p l) := by
  induction l with
  | nil => simp [insertByPriority]
  | cons q qs ih =>
    rw [insertByPriority]
    rcases List.pairwise_cons.1 h with ⟨hq, hqs⟩
    by_cases hle : p.priority ≤ q.priority
    · rw [if_pos hle]
      refine List.pairwise_cons.2 ⟨?_, h⟩
      intro b hb
      rcases List.mem_cons.1 hb with rfl | hb
      · exact hle
      · exact le_trans hle (hq b hb)
    · rw [if_neg hle]
      refine List.pairwise_cons.2 ⟨?_, ih hqs⟩
      intro b hb
      have hmem : b ∈ p :: qs := (insertByPriority_perm p qs).mem_iff.1 hb
      rcases List.mem_cons.1 hmem with rfl | hmem
      · omega
      · exact hq b hmem

theorem sortByPriority_perm (ps : List ProviderConfig) :
    List.Perm (sortByPriority ps) ps := by
  induction ps with
  | nil => rfl
  | cons p ps ih =>
    rw [sortByPriority]
    exact (insertByPriority_perm p (sortByPriority ps)).trans (List.Perm.cons p ih)

theorem sortByPriority_sorted (ps : List ProviderConfig) :
    List.Pairwise (fun a b => a.priority ≤ b.priority) (sortByPriority ps) := by
  induction ps with
  | nil => simp [sortByPriority]
  | cons p ps ih => exact insertByPriority_pairwise p _ ih

theorem insertByPriority_filter_pos (p : ProviderConfig) (l : List ProviderConfig) (k : Nat)
    (hp : p.priority = k) :
    (insertByPriority p l).filter (fun q => q.priority == k) =
      p :: l.filter (fun q => q.priority == k) := by
  induction l with
  | nil => simp [insertByPriority, List.filter, hp]
  | cons q qs ih =>
    rw [insertByPriority]
    by_cases hle : p.priority ≤ q.priority
    · rw [if_pos hle]
      simp [List.filter, hp]
    · rw [if_neg hle]
      have hq : (q.priority == k) = false := by
        simp only [beq_eq_false_iff_ne, ne_eq]
        omega
      simp only [List.filter, hq, ih]

theorem insertByPriority_filter_neg (p : ProviderConfig) (l : List ProviderConfig) (k : Nat)
    (hp : p.priority ≠ k) :
    (insertByPriority p l).filter (fun q => q.priority == k) =
      l.filter (fun q => q.priority == k) := by
  have hpf : (p.priority == k) = false := by
    simp only [beq_eq_false_iff_ne, ne_eq]
    exact hp
  induction l with
  | nil => simp [insertByPriority, List.filter, hpf]
  | cons q qs ih =>
    rw [insertByPriority]
    by_cases hle : p.priority ≤ q.priority
    · rw [if_pos hle]
      simp [List.filter, hpf]
    · rw [if_neg hle]
      simp only [List.filter, ih]

theorem sortByPriority_filter (ps : List ProviderConfig) (k : Nat) :
    (sortByPriority ps).filter (fun q => q.priority == k) =
      ps.filter (fun q => q.priority == k) := by
  induction ps with
  | nil => rfl
  | cons p ps ih =>
    rw [sortByPriority]
    by_cases hp : p.priority = k
    · rw [insertByPriority_filter_pos p _ k hp, ih]
      simp [List.filter, hp]
    · rw [insertByPriority_filter_neg p _ k hp, ih]
      have hpf : (p.priority == k) = false := by
        simp only [beq_eq_false_iff_ne, ne_eq]
        exact hp
      simp [List.filter, hpf]

theorem breakers_after_failure (st : FailoverOrchestrator) (pid : String) (now : Nat)
    (qid : String) (hne : qid ≠ pid) :
    (recordProviderFailure st pid now).circuit_breakers qid = st.circuit_breakers qid := by
  simp [recordProviderFailure, if_neg hne]

/-- With distinct provider ids and all circuit breakers Closed, the
provider iteration of `transcribe` coincides with the claim-worded
failover loop (no provider is ever skipped by its breaker). -/
theorem transcribeLoop_eq_claim (now : Nat) (rest : List ProviderConfig) :
    ∀ (st : FailoverOrchestrator) (errs : List (String × STTError)),
      (∀ p ∈ rest, (st.circuit_breakers p.id).state = .closed) →
      (rest.map (fun p => p.id)).Nodup →
      transcribeLoop now rest st errs = claimFailoverLoop now rest st errs := by
  induction rest with
  | nil =>
    intro st errs _ _
    rfl
  | cons p rest ih =>
    intro st errs hclosed hnodup
    have hc : (st.circuit_breakers p.id).state = .closed := hclosed p (by simp)
    have hcheck : (st.circuit_breakers p.id).is_request_allowed now =
        (true, st.circuit_breakers p.id) := by
      unfold CircuitBreaker.is_request_allowed
      rw [hc]
    have hupd : (fun x => if x = p.id then st.circuit_breakers p.id else st.circuit_breakers x) =
        st.circuit_breakers := by
      funext x
      by_cases hx : x = p.id
      · rw [if_pos hx, hx]
      · rw [if_neg hx]
    rw [List.map_cons] at hnodup
    have hcons := List.nodup_cons.1 hnodup
    have hnotin : p.id ∉ rest.map (fun q => q.id) := hcons.1
    have hnodup' : (rest.map (fun q => q.id)).Nodup := hcons.2
    have hinv : ∀ stx : FailoverOrchestrator,
        (∀ q ∈ rest, (stx.circuit_breakers q.id).state = .closed) →
        ∀ q ∈ rest, (((recordProviderFailure stx p.id now).circuit_breakers q.id).state =
          CircuitState.closed) := by
      intro stx hstx q hq
      have hne : q.id ≠ p.id := by
        intro he
        exact hnotin (he ▸ List.mem_map_of_mem (fun r => r.id) hq)
      rw [breakers_after_failure stx p.id now q.id hne]
      exact hstx q hq
    simp only [transcribeLoop, claimFailoverLoop, hcheck, hupd]
    cases hres : providerFinalResult p with
    | ok t =>
      by_cases hcf : p.confidence_threshold ≤ t.confidence
      · simp [hcf]
      · simp only [if_neg hcf, if_true]
        exact ih _ _ (hinv st (fun q hq => hclosed q (by simp [hq]))) hnodup'
    | error e =>
      simp only [if_true]
      exact ih _ _ (hinv st (fun q hq => hclosed q (by simp [hq]))) hnodup'

/-- C1 (counterexample to the claim as stated): with four providers
sharing one id (all failing with a non-retryable error), the first three
failures trip the shared circuit breaker, so the fourth provider is
*skipped* with a synthetic `"Circuit breaker open"` error instead of
being attempted — the orchestrator does not behave as the claim-worded
failover loop on every provider list. -/
theorem C1_failover_order_cex :
    (FailoverOrchestrator.transcribe
        (FailoverOrchestrator.new (List.replicate 4
          ⟨"x", 1, 0, 10, mkRat 7 10, fun _ => .error (.providerError "boom")⟩)) 0).1 ≠
      (claimFailoverLoop 0
        (sortByPriority (List.replicate 4
          ⟨"x", 1, 0, 10, mkRat 7 10, fun _ => .error (.providerError "boom")⟩))
        (FailoverOrchestrator.new (List.replicate 4
          ⟨"x", 1, 0, 10, mkRat 7 10, fun _ => .error (.providerError "boom")⟩)) []).1 := by
  intro he
  have h1 : (FailoverOrchestrator.transcribe
      (FailoverOrchestrator.new (List.replicate 4
        ⟨"x", 1, 0, 10, mkRat 7 10, fun _ => .error (.providerError "boom")⟩)) 0).1 =
      Except.error (OrchestratorError.allProvidersFailed
        [("x", .providerError "boom"), ("x", .providerError "boom"),
         ("x", .providerError "boom"), ("x", .providerError "Circuit breaker open")]) := rfl
  have h2 : (claimFailoverLoop 0
      (sortByPriority (List.replicate 4
        ⟨"x", 1, 0, 10, mkRat 7 10, fun _ => .error (.providerError "boom")⟩))
      (FailoverOrchestrator.new (List.replicate 4
        ⟨"x", 1, 0, 10, mkRat 7 10, fun _ => .error (.providerError "boom")⟩)) []).1 =
      Except.error (OrchestratorError.allProvidersFailed
        [("x", .providerError "boom"), ("x", .providerError "boom"),
         ("x", .providerError "boom"), ("x", .providerError "boom")]) := rfl
  rw [h1, h2] at he
  have h3 := OrchestratorError.allProvidersFailed.inj (Except.error.inj he)
  exact absurd h3 (by decide)

/-- C1 (amended): with zero providers `transcribe` returns
`NoProvidersAvailable`; the constructor orders providers by
non-decreasing priority, stably (ties keep insertion order: filtering
the sorted list at any priority equals filtering the input); and for a
freshly constructed orchestrator whose provider ids are pairwise
distinct, `transcribe` is exactly the claim-worded failover loop over
the sorted providers: attempt each provider in order, return the first
transcript with `confidence ≥ threshold` recording a success, record a
failure plus a `"Low confidence"` entry on a low-confidence `Ok` and
move on without retrying that provider, record a failure plus the error
entry on a final error, and return `AllProvidersFailed` with the
per-provider last errors when all are exhausted.  (With duplicated ids
a provider can additionally be skipped by the shared tripped breaker,
recording a `"Circuit breaker open"` entry.) -/
theorem C1_failover_order (ps : List ProviderConfig) (now : Nat) :
    (FailoverOrchestrator.transcribe (FailoverOrchestrator.new []) now =
      (.error .noProvidersAvailable, FailoverOrchestrator.new [])) ∧
    List.Pairwise (fun a b => a.priority ≤ b.priority) (sortByPriority ps) ∧
    List.Perm (sortByPriority ps) ps ∧
    (∀ k : Nat, (sortByPriority ps).filter (fun p => p.priority == k) =
      ps.filter (fun p => p.priority == k)) ∧
    ((ps.map (fun p => p.id)).Nodup → ps ≠ [] →
      FailoverOrchestrator.transcribe (FailoverOrchestrator.new ps) now =
        claimFailoverLoop now (sortByPriority ps) (FailoverOrchestrator.new ps) []) := by
  refine ⟨rfl, sortByPriority_sorted ps, sortByPriority_perm ps, sortByPriority_filter ps, ?_⟩
  intro hnodup hne
  have hsortne : sortByPriority ps ≠ [] := by
    intro hs
    exact hne ((sortByPriority_perm ps).symm.trans (hs ▸ List.Perm.refl [])).eq_nil
  have hempty : (sortByPriority ps).isEmpty = false := by
    cases hs : sortByPriority ps with
    | nil => exact absurd hs hsortne
    | cons a l => rfl
  have hnodup' : ((sortByPriority ps).map (fun p => p.id)).Nodup :=
    (((sortByPriority_perm ps).map (fun p => p.id)).nodup_iff).2 hnodup
  show (if (sortByPriority ps).isEmpty then _ else _) = _
  rw [hempty]
  exact transcribeLoop_eq_claim now (sortByPriority ps) (FailoverOrchestrator.new ps) []
    (fun p _ => rfl) hnodup'

/-- C1 witness: two distinct providers, the first low-confidence, run
through the amended equivalence. -/
theorem C1_failover_order_witness :
    FailoverOrchestrator.transcribe
        (FailoverOrchestrator.new
          [⟨"a", 2, 0, 10, mkRat 7 10,
              fun _ => .ok ⟨[], mkRat 1 2, none, 1, "a"⟩⟩,
           ⟨"b", 1, 0, 10, mkRat 7 10,
              fun _ => .ok ⟨[], mkRat 9 10, none, 1, "b"⟩⟩]) 0 =
      claimFailoverLoop 0
        (sortByPriority
          [⟨"a", 2, 0, 10, mkRat 7 10,
              fun _ => .ok ⟨[], mkRat 1 2, none, 1, "a"⟩⟩,
           ⟨"b", 1, 0, 10, mkRat 7 10,
              fun _ => .ok ⟨[], mkRat 9 10, none, 1, "b"⟩⟩])
        (FailoverOrchestrator.new
          [⟨"a", 2, 0, 10, mkRat 7 10,
              fun _ => .ok ⟨[], mkRat 1 2, none, 1, "a"⟩⟩,
           ⟨"b", 1, 0, 10, mkRat 7 10,
              fun _ => .ok ⟨[], mkRat 9 10, none, 1, "b"⟩⟩]) [] :=
  (C1_failover_order
      [⟨"a", 2, 0, 10, mkRat 7 10, fun _ => .ok ⟨[], mkRat 1 2, none, 1, "a"⟩⟩,
       ⟨"b", 1, 0, 10, mkRat 7 10, fun _ => .ok ⟨[], mkRat 9 10, none, 1, "b"⟩⟩]
      0).2.2.2.2 (by decide) (by simp)

/-! ### C7: WAV encoding -/

/-- The RIFF/WAVE shell, flattened to an explicit byte list. -/
theorem wavShell_cons (fs ds : Nat) (pcm : List Nat) :
    wavShell fs ds pcm =
      82 :: 73 :: 70 :: 70 ::
      (fs % 256) :: (fs / 256 % 256) :: (fs / 65536 % 256) :: (fs / 16777216 % 256) ::
      87 :: 65 :: 86 :: 69 :: 102 :: 109 :: 116 :: 32 ::
      16 :: 0 :: 0 :: 0 :: 1 :: 0 :: 1 :: 0 ::
      128 :: 62 :: 0 :: 0 :: 0 :: 125 :: 0 :: 0 :: 2 :: 0 :: 16 :: 0 ::
      100 :: 97 :: 116 :: 97 ::
      (ds % 256) :: (ds / 256 % 256) :: (ds / 65536 % 256) :: (ds / 16777216 % 256) ::
      pcm := by
  simp [wavShell, le32, le16]

/-- Header layout facts of the RIFF/WAVE shell, for arbitrary field
values: magic strings, fmt fields, and the little-endian decodes of the
size fields. -/
theorem wavShell_facts (fs ds : Nat) (pcm : List Nat) :
    (wavShell fs ds pcm).take 4 = [82, 73, 70, 70] ∧
    ((wavShell fs ds pcm).drop 8).take 4 = [87, 65, 86, 69] ∧
    readLE16 (wavShell fs ds pcm) 20 = 1 ∧
    readLE16 (wavShell fs ds pcm) 22 = 1 ∧
    readLE32 (wavShell fs ds pcm) 24 = 16000 ∧
    readLE16 (wavShell fs ds pcm) 34 = 16 ∧
    readLE32 (wavShell fs ds pcm) 40 =
      ds % 256 + 256 * (ds / 256 % 256) + 65536 * (ds / 65536 % 256) +
        16777216 * (ds / 16777216 % 256) := by
  rw [wavShell_cons]
  exact ⟨rfl, rfl, rfl, rfl, rfl, rfl, rfl⟩

/-- The little-endian u32 field at offset 40 of the WAV payload is the
`as u32`-cast data-chunk size `2 × len(encoded samples) mod 2^32`. -/
theorem readLE32_wavPayload_40 (audio : AudioBuffer) :
    readLE32 (wavPayload audio) 40 = 2 * (encodedSamples audio).length % 2 ^ 32 := by
  have h := (wavShell_facts (u32Mod (36 + (encodedSamples audio).length * 2))
    (u32Mod ((encodedSamples audio).length * 2))
    (((encodedSamples audio).map (fun s => le16 (i16ToU16 s))).flatten)).2.2.2.2.2.2
  have hw : readLE32 (wavPayload audio) 40 =
      readLE32 (wavShell (u32Mod (36 + (encodedSamples audio).length * 2))
        (u32Mod ((encodedSamples audio).length * 2))
        (((encodedSamples audio).map (fun s => le16 (i16ToU16 s))).flatten)) 40 := rfl
  rw [hw, h]
  have hu : u32Mod ((encodedSamples audio).length * 2) =
      (encodedSamples audio).length * 2 % 2 ^ 32 := rfl
  rw [hu]
  generalize (encodedSamples audio).length = m
  omega

theorem downmix_to_mono_one (samples : List Int) :
    downmix_to_mono samples 1 = samples.map (fun s => (Int.cast s : ℚ)) := by
  rw [downmix_to_mono, if_pos (by norm_num)]

theorem resample_linear_same_length (input : List ℚ) (r : Nat) :
    (resample_linear input r r).length = input.length := by
  by_cases he : input.isEmpty
  · rw [resample_linear, if_pos he]
    cases input with
    | nil => rfl
    | cons a l => exact absurd he (by simp)
  · rw [resample_linear, if_neg he, if_pos rfl, List.length_map]

/-- C7 (counterexample to the claim as stated): on a buffer of `2^31`
zero samples (already 16 kHz mono) the declared data-chunk size wraps
to 0 under the `as u32` cast and is not `2 × len(encoded samples)`. -/
theorem C7_wav_encoding_cex :
    readLE32 (wavPayload
        { samples := List.replicate (2 ^ 31) 0, sample_rate := 16000
          channels := 1, duration_secs := 1 }) 40 ≠
      2 * (encodedSamples
        { samples := List.replicate (2 ^ 31) 0, sample_rate := 16000
          channels := 1, duration_secs := 1 }).length := by
  have hn : (encodedSamples
      { samples := List.replicate (2 ^ 31) 0, sample_rate := 16000
        channels := 1, duration_secs := 1 } : List Int).length = 2 ^ 31 := by
    show (resample_linear (downmix_to_mono (List.replicate (2 ^ 31) (0 : Int)) 1)
      16000 16000).length = 2 ^ 31
    rw [downmix_to_mono_one, resample_linear_same_length, List.length_map,
      List.length_replicate]
  rw [readLE32_wavPayload_40, hn]
  norm_num

/-- C7 (amended): for every non-empty input buffer the encoder succeeds
and produces bytes starting with `"RIFF"`, carrying `"WAVE"` at offsets
8–11, an fmt chunk declaring PCM (tag 1), 1 channel, 16000 Hz, 16 bits
per sample, and a declared data-chunk size equal to
`2 × len(encoded samples) mod 2^32` — hence exactly
`2 × len(encoded samples)` whenever that value fits in a u32 (always
the case for the ≤ 59 s segments the pipeline produces); encoding fails
(with `InvalidAudio`) exactly when the input sample array is empty. -/
theorem C7_wav_encoding (audio : AudioBuffer) :
    (to_wav_bytes audio = .error .invalidAudio ↔ audio.samples = []) ∧
    (to_wav_bytes audio = .ok (wavPayload audio) ↔ audio.samples ≠ []) ∧
    (wavPayload audio).take 4 = [82, 73, 70, 70] ∧
    ((wavPayload audio).drop 8).take 4 = [87, 65, 86, 69] ∧
    readLE16 (wavPayload audio) 20 = 1 ∧
    readLE16 (wavPayload audio) 22 = 1 ∧
    readLE32 (wavPayload audio) 24 = 16000 ∧
    readLE16 (wavPayload audio) 34 = 16 ∧
    readLE32 (wavPayload audio) 40 = 2 * (encodedSamples audio).length % 2 ^ 32 ∧
    (2 * (encodedSamples audio).length < 2 ^ 32 →
      readLE32 (wavPayload audio) 40 = 2 * (encodedSamples audio).length) := by
  have hfacts := wavShell_facts (u32Mod (36 + (encodedSamples audio).length * 2))
    (u32Mod ((encodedSamples audio).length * 2))
    (((encodedSamples audio).map (fun s => le16 (i16ToU16 s))).flatten)
  have hpw : wavPayload audio =
      wavShell (u32Mod (36 + (encodedSamples audio).length * 2))
        (u32Mod ((encodedSamples audio).length * 2))
        (((encodedSamples audio).map (fun s => le16 (i16ToU16 s))).flatten) := rfl
  have hsplit : (audio.samples.isEmpty = true ∧ audio.samples = []) ∨
      (audio.samples.isEmpty = false ∧ audio.samples ≠ []) := by
    cases hsam : audio.samples
    · exact Or.inl ⟨rfl, rfl⟩
    · exact Or.inr ⟨rfl, by simp⟩
  refine ⟨?_, ?_, by rw [hpw]; exact hfacts.1, by rw [hpw]; exact hfacts.2.1,
    by rw [hpw]; exact hfacts.2.2.1, by rw [hpw]; exact hfacts.2.2.2.1,
    by rw [hpw]; exact hfacts.2.2.2.2.1, by rw [hpw]; exact hfacts.2.2.2.2.2.1,
    readLE32_wavPayload_40 audio, ?_⟩
  · rcases hsplit with ⟨he, hs⟩ | ⟨he, hs⟩
    · simp [to_wav_bytes, he, hs]
    · simp [to_wav_bytes, he, hs]
  · rcases hsplit with ⟨he, hs⟩ | ⟨he, hs⟩
    · simp [to_wav_bytes, he, hs]
    · simp [to_wav_bytes, he, hs]
  · intro hlt
    rw [readLE32_wavPayload_40 audio]
    omega

/-- C7 witness: a concrete two-sample mono 16 kHz buffer is encoded with
the declared data size `2 × 2 = 4`. -/
theorem C7_wav_encoding_witness :
    2 * (encodedSamples
        { samples := [5, -5], sample_rate := 16000, channels := 1
          duration_secs := 1 }).length < 2 ^ 32 ∧
      readLE32 (wavPayload
          { samples := [5, -5], sample_rate := 16000, channels := 1
            duration_secs := 1 }) 40 =
        2 * (encodedSamples
          { samples := [5, -5], sample_rate := 16000, channels := 1
            duration_secs := 1 }).length :=
  ⟨by decide,
    (C7_wav_encoding
        { samples := [5, -5], sample_rate := 16000, channels := 1
          duration_secs := 1 }).2.2.2.2.2.2.2.2.2 (by decide)⟩

/-! ### C5: overlap-aware stitching -/

theorem splitWsAux_ne_nil (rem : List Char) :
    ∀ (acc : List Char) (tok : List Char), tok ∈ splitWsAux acc rem → tok ≠ [] := by
  induction rem with
  | nil =>
    intro acc tok hmem
    rw [splitWsAux] at hmem
    by_cases he : acc.isEmpty
    · rw [if_pos he] at hmem
      exact absurd hmem (List.not_mem_nil tok)
    · rw [if_neg he] at hmem
      rcases List.mem_cons.1 hmem with rfl | hmem
      · cases acc with
        | nil => exact absurd rfl he
        | cons a l => simp
      · exact absurd hmem (List.not_mem_nil tok)
  | cons c cs ih =>
    intro acc tok hmem
    rw [splitWsAux] at hmem
    by_cases hw : c.isWhitespace
    · rw [if_pos hw] at hmem
      by_cases he : acc.isEmpty
      · rw [if_pos he] at hmem
        exact ih [] tok hmem
      · rw [if_neg he] at hmem
        rcases List.mem_cons.1 hmem with rfl | hmem
        · cases acc with
          | nil => exact absurd rfl he
          | cons a l => simp
        · exact ih [] tok hmem
    · rw [if_neg hw] at hmem
      exact ih (c :: acc) tok hmem

theorem split_whitespace_ne_nil (text : List Char) :
    ∀ tok ∈ split_whitespace text, tok ≠ [] :=
  fun tok h => splitWsAux_ne_nil text [] tok h

theorem joinSpace_ne_nil (t : List Char) (rest : List (List Char)) (ht : t ≠ []) :
    joinSpace (t :: rest) ≠ [] := by
  cases rest with
  | nil => exact ht
  | cons u us =>
    have h : joinSpace (t :: u :: us) = t ++ ' ' :: joinSpace (u :: us) := rfl
    rw [h]
    intro he
    exact ht (List.append_eq_nil.1 he).1

theorem joinSpace_append (ws : List (List Char)) (hws : ws ≠ []) :
    ∀ acc : List (List Char), acc ≠ [] →
      joinSpace (acc ++ ws) = joinSpace acc ++ ' ' :: joinSpace ws := by
  intro acc
  induction acc with
  | nil => intro h; exact absurd rfl h
  | cons x acc' ih =>
    intro _
    cases acc' with
    | nil =>
      cases ws with
      | nil => exact absurd rfl hws
      | cons w ws' => rfl
    | cons y acc'' =>
      calc joinSpace ((x :: y :: acc'') ++ ws)
          = x ++ ' ' :: joinSpace ((y :: acc'') ++ ws) := rfl
        _ = x ++ ' ' :: (joinSpace (y :: acc'') ++ ' ' :: joinSpace ws) := by
            rw [ih (by simp)]
        _ = (x ++ ' ' :: joinSpace (y :: acc'')) ++ ' ' :: joinSpace ws := by
            simp [List.append_assoc]
        _ = joinSpace (x :: y :: acc'') ++ ' ' :: joinSpace ws := rfl

theorem stitchLoop_eq_amended (segs : List AudioSegment) :
    ∀ (acc tail : List (List Char)),
      (∀ s ∈ segs, s.transcript.isSome = true) →
      (∀ t ∈ acc, t ≠ []) →
      stitchLoop segs (joinSpace acc) tail =
        .ok (joinSpace (((segs.map segmentText).foldl amendedStitchStep (acc, tail)).1)) := by
  induction segs with
  | nil =>
    intro acc tail _ _
    rfl
  | cons seg rest ih =>
    intro acc tail hsome hacc
    have hseg := hsome seg (by simp)
    rcases Option.isSome_iff_exists.1 hseg with ⟨tr, htr⟩
    have htext : segmentText seg = tr.text := by
      simp [segmentText, htr]
    rw [List.map_cons, List.foldl_cons, htext]
    set words := split_whitespace tr.text with hwords
    set survivors :=
      (if !tail.isEmpty && !words.isEmpty then words.drop (detect_overlap tail words)
       else words) with hsurv
    have hsurv_ne : ∀ t ∈ survivors, t ≠ [] := by
      intro t ht
      rw [hsurv] at ht
      split at ht
      · exact split_whitespace_ne_nil tr.text t (List.mem_of_mem_drop ht)
      · exact split_whitespace_ne_nil tr.text t ht
    have hacc' : ∀ t ∈ acc ++ survivors, t ≠ [] := by
      intro t ht
      rcases List.mem_append.1 ht with h | h
      · exact hacc t h
      · exact hsurv_ne t h
    have hamend : amendedStitchStep (acc, tail) tr.text =
        (acc ++ survivors, if survivors.isEmpty then tail else lastN 3 survivors) := rfl
    rw [hamend]
    have hmodel_surv :
        (if !tail.isEmpty && !words.isEmpty then
          (if detect_overlap tail words > 0 then words.drop (detect_overlap tail words)
           else words)
         else words) = survivors := by
      rw [hsurv]
      by_cases hc : (!tail.isEmpty && !words.isEmpty) = true
      · rw [if_pos hc, if_pos hc]
        by_cases ho : detect_overlap tail words > 0
        · rw [if_pos ho]
        · have h0 : detect_overlap tail words = 0 := by omega
          rw [if_neg ho, h0, List.drop_zero]
      · rw [if_neg hc, if_neg hc]
    have hjoin :
        (if !survivors.isEmpty then
          (if !(joinSpace acc).isEmpty && !survivors.isEmpty then joinSpace acc ++ [' ']
           else joinSpace acc) ++ joinSpace survivors
         else
          (if !(joinSpace acc).isEmpty && !survivors.isEmpty then joinSpace acc ++ [' ']
           else joinSpace acc)) = joinSpace (acc ++ survivors) := by
      cases hs : survivors with
      | nil => simp
      | cons u us =>
        have hune : u ≠ [] := hsurv_ne u (by rw [hs]; simp)
        cases hacc2 : acc with
        | nil => simp [joinSpace]
        | cons a as =>
          have hane : a ≠ [] := hacc a (by rw [hacc2]; simp)
          have hjne : joinSpace (a :: as) ≠ [] := joinSpace_ne_nil a as hane
          have hje : (joinSpace (a :: as)).isEmpty = false := by
            cases hj : joinSpace (a :: as) with
            | nil => exact absurd hj hjne
            | cons b bs => rfl
          rw [joinSpace_append (u :: us) (by simp) (a :: as) (by simp), hje]
          simp [List.append_assoc]
    have htail :
        (if !survivors.isEmpty then lastN 3 survivors else tail) =
        (if survivors.isEmpty then tail else lastN 3 survivors) := by
      cases survivors <;> rfl
    simp only [stitchLoop, htr]
    rw [← hwords]
    rw [hmodel_surv]
    rw [hjoin, htail]
    exact ih (acc ++ survivors) _ (fun s hs => hsome s (by simp [hs])) hacc'

/-- C5 (counterexample to the claim as stated): on three segments all
reading `"a b"`, the source keeps the previous tail `["a","b"]` when a
segment is fully trimmed away, so the third segment is also trimmed and
the stitched text is `"A b"`; the claim's rule (tail set to the last
up-to-3 tokens of the current segment *after trimming*, i.e. emptied)
would stitch `"A b a b"`. -/
theorem C5_stitching_cex :
    Stitcher.stitch_transcripts
        [{ id := "1"
           transcript := some { text := "a b".toList, confidence := mkRat 95 100
                                language := none, duration_secs := 1, provider := "Groq" }
           sequence_number := 1, duration_secs := 1 },
         { id := "2"
           transcript := some { text := "a b".toList, confidence := mkRat 95 100
                                language := none, duration_secs := 1, provider := "Groq" }
           sequence_number := 2, duration_secs := 1 },
         { id := "3"
           transcript := some { text := "a b".toList, confidence := mkRat 95 100
                                language := none, duration_secs := 1, provider := "Groq" }
           sequence_number := 3, duration_secs := 1 }] ≠
      Except.ok (claimStitch
        ([{ id := "1"
            transcript := some { text := "a b".toList, confidence := mkRat 95 100
                                 language := none, duration_secs := 1, provider := "Groq" }
            sequence_number := 1, duration_secs := 1 },
          { id := "2"
            transcript := some { text := "a b".toList, confidence := mkRat 95 100
                                 language := none, duration_secs := 1, provider := "Groq" }
            sequence_number := 2, duration_secs := 1 },
          { id := "3"
            transcript := some { text := "a b".toList, confidence := mkRat 95 100
                                 language := none, duration_secs := 1, provider := "Groq" }
            sequence_number := 3, duration_secs := 1 }].map segmentText)) := by
  intro he
  have h1 : Stitcher.stitch_transcripts
      [({ id := "1"
          transcript := some { text := "a b".toList, confidence := mkRat 95 100
                               language := none, duration_secs := 1, provider := "Groq" }
          sequence_number := 1, duration_secs := 1 } : AudioSegment),
       { id := "2"
         transcript := some { text := "a b".toList, confidence := mkRat 95 100
                              language := none, duration_secs := 1, provider := "Groq" }
         sequence_number := 2, duration_secs := 1 },
       { id := "3"
         transcript := some { text := "a b".toList, confidence := mkRat 95 100
                              language := none, duration_secs := 1, provider := "Groq" }
         sequence_number := 3, duration_secs := 1 }] = Except.ok ("A b".toList) := rfl
  have h2 : claimStitch
      ([({ id := "1"
           transcript := some { text := "a b".toList, confidence := mkRat 95 100
                                language := none, duration_secs := 1, provider := "Groq" }
           sequence_number := 1, duration_secs := 1 } : AudioSegment),
        { id := "2"
          transcript := some { text := "a b".toList, confidence := mkRat 95 100
                               language := none, duration_secs := 1, provider := "Groq" }
          sequence_number := 2, duration_secs := 1 },
        { id := "3"
          transcript := some { text := "a b".toList, confidence := mkRat 95 100
                               language := none, duration_secs := 1, provider := "Groq" }
          sequence_number := 3, duration_secs := 1 }].map segmentText) = "A b a b".toList := rfl
  rw [h1, h2] at he
  have h3 := Except.ok.inj he
  exact absurd h3 (by decide)

/-- C5 (amended): for every segment sequence in which every segment
carries a transcript, `stitch_transcripts` tokenizes each transcript by
whitespace, drops from each segment's head the largest `n ∈ {3,2,1}`
(0 when none matches) such that the lowercased last `n` previous-tail
tokens equal the lowercased first `n` current tokens, joins the
surviving tokens with single spaces and normalizes the result; after a
segment is processed the previous tail becomes the last up-to-3
surviving tokens of that segment — *when at least one token survives;
otherwise the previous tail is retained*.  The empty sequence stitches
to the empty string. -/
theorem C5_stitching (segs : List AudioSegment)
    (hsome : ∀ s ∈ segs, s.transcript.isSome = true) :
    Stitcher.stitch_transcripts segs = .ok (amendedStitch (segs.map segmentText)) := by
  cases hsegs : segs with
  | nil => rfl
  | cons a l =>
    have h := stitchLoop_eq_amended (a :: l) [] [] (by rw [hsegs] at hsome; exact hsome)
      (by intro t ht; exact absurd ht (List.not_mem_nil t))
    rw [Stitcher.stitch_transcripts, if_neg (by simp)]
    have hj : joinSpace [] = [] := rfl
    rw [hj] at h
    rw [h]
    rfl

/-- C5 witness: two overlapping segments stitched through the amended
equivalence. -/
theorem C5_stitching_witness :
    Stitcher.stitch_transcripts
        [{ id := "1"
           transcript := some { text := "hello there".toList, confidence := mkRat 95 100
                                language := none, duration_secs := 1, provider := "Groq" }
           sequence_number := 1, duration_secs := 1 },
         { id := "2"
           transcript := some { text := "there friend".toList, confidence := mkRat 95 100
                                language := none, duration_secs := 1, provider := "Groq" }
           sequence_number := 2, duration_secs := 1 }] =
      .ok (amendedStitch
        ([{ id := "1"
            transcript := some { text := "hello there".toList, confidence := mkRat 95 100
                                 language := none, duration_secs := 1, provider := "Groq" }
            sequence_number := 1, duration_secs := 1 },
          { id := "2"
            transcript := some { text := "there friend".toList, confidence := mkRat 95 100
                                 language := none, duration_secs := 1, provider := "Groq" }
            sequence_number := 2, duration_secs := 1 }].map segmentText)) :=
  C5_stitching
    [{ id := "1"
       transcript := some { text := "hello there".toList, confidence := mkRat 95 100
                            language := none, duration_secs := 1, provider := "Groq" }
       sequence_number := 1, duration_secs := 1 },
     { id := "2"
       transcript := some { text := "there friend".toList, confidence := mkRat 95 100
                            language := none, duration_secs := 1, provider := "Groq" }
       sequence_number := 2, duration_secs := 1 }] (by decide)

/-! ### C9: normalization idempotence -/

theorem ws_char_cases (c : Char) (h : c.isWhitespace = true) :
    c = ' ' ∨ c = '\t' ∨ c = '\r' ∨ c = '\n' := by
  simp only [Char.isWhitespace, Bool.or_eq_true, decide_eq_true_eq] at h
  tauto

theorem ws_not_alpha (c : Char) (h : c.isWhitespace = true) : isAsciiAlpha c = false := by
  rcases ws_char_cases c h with rfl | rfl | rfl | rfl <;> decide

theorem ws_not_sentence (c : Char) (h : c.isWhitespace = true) : is_sentence_end c = false := by
  rcases ws_char_cases c h with rfl | rfl | rfl | rfl <;> decide

theorem ws_not_punct (c : Char) (h : c.isWhitespace = true) : is_punct c = false := by
  rcases ws_char_cases c h with rfl | rfl | rfl | rfl <;> decide

theorem punct_char_cases (c : Char) (h : is_punct c = true) :
    c = '.' ∨ c = '!' ∨ c = '?' ∨ c = ',' := by
  simp only [is_punct, Bool.or_eq_true, decide_eq_true_eq] at h
  tauto

theorem punct_not_ws (c : Char) (h : is_punct c = true) : c.isWhitespace = false := by
  rcases punct_char_cases c h with rfl | rfl | rfl | rfl <;> decide

theorem sentence_end_char_cases (c : Char) (h : is_sentence_end c = true) :
    c = '.' ∨ c = '!' ∨ c = '?' := by
  simp only [is_sentence_end, Bool.or_eq_true, decide_eq_true_eq] at h
  tauto

theorem space_not_punct : is_punct ' ' = false := by decide

theorem alpha_class (c : Char) (h : isAsciiAlpha c = true) :
    c.isWhitespace = false ∧ is_punct c = false ∧ is_sentence_end c = false :=
  ⟨isWhitespace_eq_false_of_alpha c h, is_punct_eq_false_of_alpha c h,
    is_sentence_end_eq_false_of_alpha c h⟩

theorem asciiUpper_class (c : Char) (h : isAsciiAlpha c = true) :
    (asciiUpper c).isWhitespace = false ∧ is_punct (asciiUpper c) = false ∧
      is_sentence_end (asciiUpper c) = false :=
  alpha_class (asciiUpper c) (by rw [isAsciiAlpha_asciiUpper]; exact h)

-- A: collapse lemmas
theorem collapseAux_ws1 (l : List Char) : ∀ b : Bool, WS1 (collapseAux b l) := by
  induction l with
  | nil => intro b c hc; exact absurd hc (List.not_mem_nil c)
  | cons c cs ih =>
    intro b d hd hw
    rw [collapseAux] at hd
    by_cases hc : c.isWhitespace
    · rw [if_pos hc] at hd
      by_cases hb : b
      · rw [if_pos hb] at hd
        exact ih true d hd hw
      · rw [if_neg hb] at hd
        rcases List.mem_cons.1 hd with rfl | hd
        · rfl
        · exact ih true d hd hw
    · rw [if_neg hc] at hd
      rcases List.mem_cons.1 hd with rfl | hd
      · exact absurd hw (by simp [hc])
      · exact ih false d hd hw

theorem collapseAux_head_true (l : List Char) :
    ∀ c, (collapseAux true l).head? = some c → c.isWhitespace = false := by
  induction l with
  | nil => intro c hc; cases hc
  | cons a as ih =>
    intro c hc
    rw [collapseAux] at hc
    by_cases ha : a.isWhitespace
    · rw [if_pos ha, if_pos rfl] at hc
      exact ih c hc
    · rw [if_neg ha] at hc
      cases hc
      exact Bool.eq_false_iff.2 ha

theorem collapseAux_noDbl (l : List Char) : ∀ b : Bool, NoDbl (collapseAux b l) := by
  induction l with
  | nil => intro b; exact List.chain'_nil
  | cons c cs ih =>
    intro b
    rw [collapseAux]
    by_cases hc : c.isWhitespace
    · rw [if_pos hc]
      by_cases hb : b
      · rw [if_pos hb]
        exact ih true
      · rw [if_neg hb]
        refine List.chain'_cons'.2 ⟨?_, ih true⟩
        intro h hh hcon
        rw [collapseAux_head_true cs h hh] at hcon
        exact absurd hcon.2 (by simp)
    · rw [if_neg hc]
      refine List.chain'_cons'.2 ⟨?_, ih false⟩
      intro h _ hcon
      exact hc hcon.1

theorem collapse_spaces_NoDS (l : List Char) : NoDS (collapse_spaces l) :=
  ⟨collapseAux_ws1 l false, collapseAux_noDbl l false⟩

theorem collapse_fix (l : List Char) (h : NoDS l) :
    collapseAux false l = l ∧
      ((∀ c, l.head? = some c → c.isWhitespace = false) → collapseAux true l = l) := by
  induction l with
  | nil => exact ⟨rfl, fun _ => rfl⟩
  | cons c cs ih =>
    have hws1 := h.1
    have htl : NoDS cs := ⟨fun d hd => hws1 d (List.mem_cons_of_mem c hd), h.2.tail⟩
    have hih := ih htl
    constructor
    · rw [collapseAux]
      by_cases hc : c.isWhitespace
      · rw [if_pos hc, if_neg (by simp)]
        have hcsp : c = ' ' := hws1 c (by simp) hc
        have hhead : ∀ d, cs.head? = some d → d.isWhitespace = false := by
          intro d hd
          have hpair := List.chain'_cons'.1 h.2
          have := hpair.1 d hd
          by_contra hdw
          exact this ⟨hc, by simpa using hdw⟩
        rw [hih.2 hhead, hcsp]
      · rw [if_neg hc, hih.1]
    · intro hhead
      rw [collapseAux]
      by_cases hc : c.isWhitespace
      · exact absurd (hhead c rfl) (by simp [hc])
      · rw [if_neg hc, hih.1]

-- B: ensure lemmas
theorem ensure_head (l : List Char) :
    (ensure_space_after_punct l).head? = l.head? := by
  cases l with
  | nil => rfl
  | cons c cs =>
    cases cs with
    | nil => rfl
    | cons d ds =>
      rw [ensure_space_after_punct]
      by_cases h : (is_punct c && !d.isWhitespace) = true
      · rw [if_pos h]
        rfl
      · rw [if_neg h]
        rfl

theorem ensure_NoDS (l : List Char) (h : NoDS l) : NoDS (ensure_space_after_punct l) := by
  induction l with
  | nil => exact ⟨fun c hc => absurd hc (List.not_mem_nil c), List.chain'_nil⟩
  | cons c cs ih =>
    cases cs with
    | nil => exact h
    | cons d ds =>
      have htl : NoDS (d :: ds) := ⟨fun e he => h.1 e (List.mem_cons_of_mem c he), h.2.tail⟩
      have hih := ih htl
      have hpair := (List.chain'_cons'.1 h.2).1
      rw [ensure_space_after_punct]
      by_cases hb : (is_punct c && !d.isWhitespace) = true
      · rw [if_pos hb]
        have hb' := hb
        simp only [Bool.and_eq_true] at hb'
        have hcp : is_punct c = true := hb'.1
        have hcw : c.isWhitespace = false := punct_not_ws c hcp
        have hdw : d.isWhitespace = false := by
          have := hb'.2
          simpa using this
        constructor
        · intro e he hw
          rcases List.mem_cons.1 he with rfl | he
          · exact absurd hw (by simp [hcw])
          · rcases List.mem_cons.1 he with rfl | he
            · rfl
            · exact hih.1 e he hw
        · refine List.chain'_cons'.2 ⟨?_, ?_⟩
          · intro e _ hcon
            exact absurd hcon.1 (by simp [hcw])
          · refine List.chain'_cons'.2 ⟨?_, hih.2⟩
            intro e he hcon
            rw [ensure_head (d :: ds)] at he
            cases he
            exact absurd hcon.2 (by simp [hdw])
      · rw [if_neg hb]
        constructor
        · intro e he hw
          rcases List.mem_cons.1 he with rfl | he
          · exact h.1 e (by simp) hw
          · exact hih.1 e he hw
        · refine List.chain'_cons'.2 ⟨?_, hih.2⟩
          intro e he hcon
          rw [ensure_head (d :: ds)] at he
          cases he
          exact hpair d rfl hcon

theorem ensure_E1 (l : List Char) :
    List.Chain' (fun a b => is_punct a = true → b.isWhitespace = true)
      (ensure_space_after_punct l) := by
  induction l with
  | nil => exact List.chain'_nil
  | cons c cs ih =>
    cases cs with
    | nil => exact List.chain'_singleton c
    | cons d ds =>
      rw [ensure_space_after_punct]
      by_cases hb : (is_punct c && !d.isWhitespace) = true
      · rw [if_pos hb]
        refine List.chain'_cons'.2 ⟨?_, ?_⟩
        · intro e he _
          cases he
          rfl
        · refine List.chain'_cons'.2 ⟨?_, ih⟩
          intro e _ hsp
          exact absurd hsp (by simp [space_not_punct])
      · rw [if_neg hb]
        refine List.chain'_cons'.2 ⟨?_, ih⟩
        intro e he hcp
        rw [ensure_head (d :: ds)] at he
        cases he
        have := Bool.and_eq_false_iff.1 (Bool.eq_false_iff.2 hb)
        rcases this with h1 | h2
        · exact absurd hcp (by simp [h1])
        · simpa using h2

-- C: remove lemmas
theorem remove_subset (l : List Char) :
    ∀ c ∈ remove_space_before_punct l, c ∈ l := by
  induction l with
  | nil => intro c hc; exact absurd hc (List.not_mem_nil c)
  | cons a as ih =>
    intro c hc
    rw [remove_space_before_punct] at hc
    by_cases hb : (a.isWhitespace && headIsPunct as) = true
    · rw [if_pos hb] at hc
      exact List.mem_cons_of_mem a (ih c hc)
    · rw [if_neg hb] at hc
      rcases List.mem_cons.1 hc with rfl | hc
      · simp
      · exact List.mem_cons_of_mem a (ih c hc)

theorem remove_head (l : List Char) (h : NoDS l) :
    (remove_space_before_punct l).head? = l.head? ∨
      ∃ a d tl, l = a :: d :: tl ∧ a.isWhitespace = true ∧ is_punct d = true ∧
        (remove_space_before_punct l).head? = some d := by
  cases l with
  | nil => exact Or.inl rfl
  | cons a as =>
    cases as with
    | nil =>
      left
      rw [remove_space_before_punct]
      rw [if_neg (by simp [headIsPunct])]
      rfl
    | cons d tl =>
      by_cases hb : (a.isWhitespace && headIsPunct (d :: tl)) = true
      · right
        have hb' := hb
        simp only [Bool.and_eq_true] at hb'
        have hdp : is_punct d = true := hb'.2
        refine ⟨a, d, tl, rfl, hb'.1, hdp, ?_⟩
        rw [remove_space_before_punct, if_pos hb]
        rw [remove_space_before_punct]
        rw [if_neg (by simp [punct_not_ws d hdp])]
        rfl
      · left
        rw [remove_space_before_punct, if_neg hb]
        rfl

theorem remove_NoDS (l : List Char) (h : NoDS l) :
    NoDS (remove_space_before_punct l) := by
  have hws1 : WS1 (remove_space_before_punct l) :=
    fun c hc hw => h.1 c (remove_subset l c hc) hw
  refine ⟨hws1, ?_⟩
  induction l with
  | nil => exact List.chain'_nil
  | cons a as ih =>
    have htl : NoDS as := ⟨fun e he => h.1 e (List.mem_cons_of_mem a he), h.2.tail⟩
    have hih := ih htl (fun c hc hw => htl.1 c (remove_subset as c hc) hw)
    rw [remove_space_before_punct]
    by_cases hb : (a.isWhitespace && headIsPunct as) = true
    · rw [if_pos hb]
      exact hih
    · rw [if_neg hb]
      refine List.chain'_cons'.2 ⟨?_, hih⟩
      intro e he hcon
      rcases remove_head as htl with hh | ⟨x, y, tl2, hx, hxw, hyp, hh⟩
      · rw [hh] at he
        have hpair := (List.chain'_cons'.1 h.2).1
        exact hpair e he hcon
      · rw [hh] at he
        cases he
        exact absurd hcon.2 (by simp [punct_not_ws e hyp])

theorem remove_P1 (l : List Char) (h : NoDS l) :
    P1 (remove_space_before_punct l) := by
  induction l with
  | nil => exact List.chain'_nil
  | cons a as ih =>
    have htl : NoDS as := ⟨fun e he => h.1 e (List.mem_cons_of_mem a he), h.2.tail⟩
    have hih := ih htl
    rw [remove_space_before_punct]
    by_cases hb : (a.isWhitespace && headIsPunct as) = true
    · rw [if_pos hb]
      exact hih
    · rw [if_neg hb]
      refine List.chain'_cons'.2 ⟨?_, hih⟩
      intro e he hcon
      rcases remove_head as htl with hh | ⟨x, y, tl2, hx, hxw, hyp, hh⟩
      · rw [hh] at he
        -- e is the head of as; a kept means ¬(a ws ∧ head as punct)
        have : headIsPunct as = true := by
          cases as with
          | nil => cases he
          | cons e0 tl0 =>
            cases he
            exact hcon.2
        rw [Bool.and_eq_true] at hb
        exact hb ⟨hcon.1, this⟩
      · -- head of remove as is y (punct) because as starts with whitespace x;
        -- but then a and x are two adjacent whitespace characters
        rw [hh] at he
        cases he
        have hpair := (List.chain'_cons'.1 h.2).1
        rw [hx] at hpair
        exact hpair x rfl ⟨hcon.1, hxw⟩

theorem remove_P2 (l : List Char) (h : NoDS l)
    (he1 : List.Chain' (fun a b => is_punct a = true → b.isWhitespace = true) l) :
    P2 (remove_space_before_punct l) := by
  induction l with
  | nil => exact List.chain'_nil
  | cons a as ih =>
    have htl : NoDS as := ⟨fun e he => h.1 e (List.mem_cons_of_mem a he), h.2.tail⟩
    have hih := ih htl he1.tail
    rw [remove_space_before_punct]
    by_cases hb : (a.isWhitespace && headIsPunct as) = true
    · rw [if_pos hb]
      exact hih
    · rw [if_neg hb]
      refine List.chain'_cons'.2 ⟨?_, hih⟩
      intro e he hap
      rcases remove_head as htl with hh | ⟨x, y, tl2, hx, hxw, hyp, hh⟩
      · rw [hh] at he
        have hpair := (List.chain'_cons'.1 he1).1
        exact Or.inr (hpair e he hap)
      · rw [hh] at he
        cases he
        exact Or.inl hyp

-- D: capitalize lemmas
theorem capAux_head (b : Bool) (l : List Char) :
    ∀ c', (capitalizeAux b l).head? = some c' → ∃ c, l.head? = some c ∧
      c'.isWhitespace = c.isWhitespace ∧ is_punct c' = is_punct c := by
  cases l with
  | nil => intro c' hc'; cases hc'
  | cons c cs =>
    intro c' hc'
    rw [capitalizeAux] at hc'
    by_cases hb : (b && isAsciiAlpha c) = true
    · rw [if_pos hb] at hc'
      cases hc'
      have ha : isAsciiAlpha c = true := by
        have := hb
        simp only [Bool.and_eq_true] at this
        exact this.2
      refine ⟨c, rfl, ?_, ?_⟩
      · rw [(asciiUpper_class c ha).1, (alpha_class c ha).1]
      · rw [(asciiUpper_class c ha).2.1, (alpha_class c ha).2.1]
    · rw [if_neg hb] at hc'
      cases hc'
      exact ⟨c, rfl, rfl, rfl⟩

theorem capAux_chain (R : Char → Char → Prop)
    (hR : ∀ a b, R a b → ∀ a' b', a'.isWhitespace = a.isWhitespace →
      is_punct a' = is_punct a → b'.isWhitespace = b.isWhitespace →
      is_punct b' = is_punct b → R a' b') :
    ∀ (l : List Char) (b : Bool), List.Chain' R l → List.Chain' R (capitalizeAux b l) := by
  intro l
  induction l with
  | nil => intro b _; exact List.chain'_nil
  | cons c cs ih =>
    intro b h
    have hpair := (List.chain'_cons'.1 h).1
    have htail := (List.chain'_cons'.1 h).2
    rw [capitalizeAux]
    by_cases hb : (b && isAsciiAlpha c) = true
    · rw [if_pos hb]
      have ha : isAsciiAlpha c = true := by
        have := hb
        simp only [Bool.and_eq_true] at this
        exact this.2
      refine List.chain'_cons'.2 ⟨?_, ih false htail⟩
      intro h' hh'
      rcases capAux_head false cs h' hh' with ⟨h0, hh0, hw0, hp0⟩
      exact hR c h0 (hpair h0 hh0) (asciiUpper c) h'
        (by rw [(asciiUpper_class c ha).1, (alpha_class c ha).1])
        (by rw [(asciiUpper_class c ha).2.1, (alpha_class c ha).2.1]) hw0 hp0
    · rw [if_neg hb]
      refine List.chain'_cons'.2 ⟨?_, ih _ htail⟩
      intro h' hh'
      rcases capAux_head _ cs h' hh' with ⟨h0, hh0, hw0, hp0⟩
      exact hR c h0 (hpair h0 hh0) c h' rfl rfl hw0 hp0

theorem capAux_mem (l : List Char) :
    ∀ (b : Bool) (c' : Char), c' ∈ capitalizeAux b l →
      c' ∈ l ∨ ∃ c ∈ l, isAsciiAlpha c = true ∧ c' = asciiUpper c := by
  induction l with
  | nil => intro b c' hc'; exact absurd hc' (List.not_mem_nil c')
  | cons c cs ih =>
    intro b c' hc'
    rw [capitalizeAux] at hc'
    by_cases hb : (b && isAsciiAlpha c) = true
    · rw [if_pos hb] at hc'
      have ha : isAsciiAlpha c = true := by
        have := hb
        simp only [Bool.and_eq_true] at this
        exact this.2
      rcases List.mem_cons.1 hc' with rfl | hc'
      · exact Or.inr ⟨c, by simp, ha, rfl⟩
      · rcases ih false c' hc' with h | ⟨c0, hc0, ha0, rfl⟩
        · exact Or.inl (List.mem_cons_of_mem c h)
        · exact Or.inr ⟨c0, List.mem_cons_of_mem c hc0, ha0, rfl⟩
    · rw [if_neg hb] at hc'
      rcases List.mem_cons.1 hc' with rfl | hc'
      · exact Or.inl (by simp)
      · rcases ih _ c' hc' with h | ⟨c0, hc0, ha0, rfl⟩
        · exact Or.inl (List.mem_cons_of_mem c h)
        · exact Or.inr ⟨c0, List.mem_cons_of_mem c hc0, ha0, rfl⟩

theorem capAux_ws1 (l : List Char) (b : Bool) (h : WS1 l) : WS1 (capitalizeAux b l) := by
  intro c' hc' hw
  rcases capAux_mem l b c' hc' with hmem | ⟨c, _, ha, rfl⟩
  · exact h c' hmem hw
  · exact absurd hw (by simp [(asciiUpper_class c ha).1])

theorem capFix_of_capAux (l : List Char) : ∀ b : Bool, capFix b (capitalizeAux b l) := by
  induction l with
  | nil => intro b; trivial
  | cons c cs ih =>
    intro b
    rw [capitalizeAux]
    by_cases hb : (b && isAsciiAlpha c) = true
    · rw [if_pos hb]
      have hb' := hb
      simp only [Bool.and_eq_true] at hb'
      rw [capFix, if_pos (by simp [hb'.1, isAsciiAlpha_asciiUpper, hb'.2])]
      exact ⟨asciiUpper_idem c, ih false⟩
    · rw [if_neg hb]
      rw [capFix, if_neg (by simpa using hb)]
      exact ih _

theorem capFix_id (l : List Char) : ∀ b : Bool, capFix b l → capitalizeAux b l = l := by
  induction l with
  | nil => intro b _; rfl
  | cons c cs ih =>
    intro b hfix
    rw [capFix] at hfix
    rw [capitalizeAux]
    by_cases hb : (b && isAsciiAlpha c) = true
    · rw [if_pos hb] at hfix
      rw [if_pos hb, hfix.1, ih false hfix.2]
    · rw [if_neg hb] at hfix
      rw [if_neg hb, ih _ hfix]

theorem capFix_append_left (l1 : List Char) :
    ∀ (b : Bool) (l2 : List Char), capFix b (l1 ++ l2) → capFix b l1 := by
  induction l1 with
  | nil => intro b l2 _; trivial
  | cons c cs ih =>
    intro b l2 hfix
    rw [List.cons_append, capFix] at hfix
    rw [capFix]
    by_cases hb : (b && isAsciiAlpha c) = true
    · rw [if_pos hb] at hfix
      rw [if_pos hb]
      exact ⟨hfix.1, ih false l2 hfix.2⟩
    · rw [if_neg hb] at hfix
      rw [if_neg hb]
      exact ih _ l2 hfix

theorem capFix_dropWhile (l : List Char) (h : capFix true l) :
    capFix true (l.dropWhile Char.isWhitespace) := by
  induction l with
  | nil => trivial
  | cons c cs ih =>
    by_cases hw : c.isWhitespace = true
    · rw [List.dropWhile_cons, if_pos hw]
      rw [capFix, if_neg (by simp [ws_not_alpha c hw]), ws_not_sentence c hw] at h
      exact ih (by simpa using h)
    · rw [List.dropWhile_cons, if_neg hw]
      exact h

-- E: trim lemmas
theorem head?_dropWhile (p : Char → Bool) (l : List Char) :
    ∀ c, (l.dropWhile p).head? = some c → p c = false := by
  induction l with
  | nil => intro c hc; cases hc
  | cons a as ih =>
    intro c hc
    rw [List.dropWhile_cons] at hc
    by_cases hp : p a = true
    · rw [if_pos hp] at hc
      exact ih c hc
    · rw [if_neg hp] at hc
      cases hc
      exact Bool.eq_false_iff.2 hp

theorem trim_prefix (m : List Char) :
    ∃ l2, m.dropWhile Char.isWhitespace = trimChars m ++ l2 := by
  refine ⟨((m.dropWhile Char.isWhitespace).reverse.takeWhile Char.isWhitespace).reverse, ?_⟩
  rw [trimChars]
  have h := List.takeWhile_append_dropWhile
    (p := Char.isWhitespace) (l := (m.dropWhile Char.isWhitespace).reverse)
  calc m.dropWhile Char.isWhitespace
      = ((m.dropWhile Char.isWhitespace).reverse).reverse := (List.reverse_reverse _).symm
    _ = (((m.dropWhile Char.isWhitespace).reverse.takeWhile Char.isWhitespace) ++
          ((m.dropWhile Char.isWhitespace).reverse.dropWhile Char.isWhitespace)).reverse := by
        rw [h]
    _ = ((m.dropWhile Char.isWhitespace).reverse.dropWhile Char.isWhitespace).reverse ++
          ((m.dropWhile Char.isWhitespace).reverse.takeWhile Char.isWhitespace).reverse := by
        rw [List.reverse_append]

theorem chain'_dropWhile (R : Char → Char → Prop) (p : Char → Bool) (l : List Char)
    (h : List.Chain' R l) : List.Chain' R (l.dropWhile p) := by
  have h2 : List.Chain' R (l.takeWhile p ++ l.dropWhile p) := by
    rw [List.takeWhile_append_dropWhile]
    exact h
  exact (List.chain'_append.1 h2).2.1

theorem chain'_trim (R : Char → Char → Prop) (l : List Char)
    (h : List.Chain' R l) : List.Chain' R (trimChars l) := by
  rw [trimChars]
  rw [List.chain'_reverse]
  apply chain'_dropWhile
  rw [List.chain'_reverse]
  exact chain'_dropWhile _ _ _ h

theorem trim_subset (l : List Char) : ∀ c ∈ trimChars l, c ∈ l := by
  intro c hc
  rw [trimChars, List.mem_reverse] at hc
  have h1 := (List.dropWhile_sublist (l := (l.dropWhile Char.isWhitespace).reverse)
    (p := Char.isWhitespace)).subset hc
  rw [List.mem_reverse] at h1
  exact (List.dropWhile_sublist (l := l) (p := Char.isWhitespace)).subset h1

theorem trimmed_trim (m : List Char) : Trimmed (trimChars m) := by
  constructor
  · intro c hc
    rcases trim_prefix m with ⟨l2, hl2⟩
    have hh : (m.dropWhile Char.isWhitespace).head? = some c := by
      rw [hl2]
      cases ht : trimChars m with
      | nil => rw [ht] at hc; cases hc
      | cons a as =>
        rw [ht] at hc
        cases hc
        rfl
    exact head?_dropWhile _ m c hh
  · intro c hc
    rw [trimChars, List.getLast?_reverse] at hc
    exact head?_dropWhile _ _ c hc

theorem dropWhile_eq_self_of_head (p : Char → Bool) (l : List Char)
    (h : ∀ c, l.head? = some c → p c = false) : l.dropWhile p = l := by
  cases l with
  | nil => rfl
  | cons a as => rw [List.dropWhile_cons, if_neg (by simp [h a rfl])]

theorem trim_id (t : List Char) (h : Trimmed t) : trimChars t = t := by
  rw [trimChars]
  rw [dropWhile_eq_self_of_head _ t h.1]
  rw [dropWhile_eq_self_of_head _ t.reverse
    (by intro c hc; rw [List.head?_reverse] at hc; exact h.2 c hc)]
  exact List.reverse_reverse t

theorem collapse_spaces_id (l : List Char) (h : NoDS l) : collapse_spaces l = l :=
  (collapse_fix l h).1

-- F: second-pass cancellation of ensure and remove
theorem remove_ensure_id (l : List Char) :
    NoDS l → P1 l → P2 l →
      remove_space_before_punct (ensure_space_after_punct l) = l := by
  induction l with
  | nil => intro _ _ _; rfl
  | cons c cs ih =>
    intro hnds hp1 hp2
    cases cs with
    | nil =>
      rw [ensure_space_after_punct, remove_space_before_punct]
      rw [if_neg (by simp [headIsPunct])]
      rfl
    | cons d ds =>
      have htl : NoDS (d :: ds) :=
        ⟨fun e he => hnds.1 e (List.mem_cons_of_mem c he), hnds.2.tail⟩
      have hihres := ih htl hp1.tail hp2.tail
      rw [ensure_space_after_punct]
      by_cases hb : (is_punct c && !d.isWhitespace) = true
      · rw [if_pos hb]
        have hb' := hb
        simp only [Bool.and_eq_true] at hb'
        have hcp : is_punct c = true := hb'.1
        have hdw : d.isWhitespace = false := by simpa using hb'.2
        have hdp : is_punct d = true := by
          have hpair := (List.chain'_cons'.1 hp2).1
          rcases hpair d rfl hcp with h | h
          · exact h
          · exact absurd h (by simp [hdw])
        rw [remove_space_before_punct]
        rw [if_neg (by simp [punct_not_ws c hcp])]
        rw [remove_space_before_punct]
        have hEhead : ∃ E', ensure_space_after_punct (d :: ds) = d :: E' := by
          have hh := ensure_head (d :: ds)
          cases hE : ensure_space_after_punct (d :: ds) with
          | nil => rw [hE] at hh; cases hh
          | cons e0 E' =>
            rw [hE] at hh
            cases hh
            exact ⟨E', rfl⟩
        rcases hEhead with ⟨E', hE⟩
        rw [hE]
        rw [if_pos (by simp [headIsPunct, hdp])]
        rw [← hE, hihres]
      · rw [if_neg hb]
        rw [remove_space_before_punct]
        have hnodel : (c.isWhitespace && headIsPunct (ensure_space_after_punct (d :: ds))) = false := by
          have hh := ensure_head (d :: ds)
          cases hE : ensure_space_after_punct (d :: ds) with
          | nil => simp [headIsPunct]
          | cons e0 E' =>
            rw [hE] at hh
            cases hh
            by_cases hcw : c.isWhitespace = true
            · have hpair := (List.chain'_cons'.1 hp1).1
              have hdnp : ¬ is_punct d = true := fun hdp => hpair d rfl ⟨hcw, hdp⟩
              simp [headIsPunct, hcw]
              simpa using hdnp
            · simp [Bool.eq_false_iff.2 hcw]
        rw [if_neg (by simp [hnodel])]
        rw [hihres]

theorem cap_noDbl (l : List Char) (b : Bool) (h : NoDbl l) :
    NoDbl (capitalizeAux b l) := by
  refine capAux_chain _ ?_ l b h
  intro a b hab a' b' hwa hpa hwb hpb hcon
  exact hab ⟨hwa ▸ hcon.1, hwb ▸ hcon.2⟩

theorem cap_P1 (l : List Char) (b : Bool) (h : P1 l) : P1 (capitalizeAux b l) := by
  refine capAux_chain _ ?_ l b h
  intro a b hab a' b' hwa hpa hwb hpb hcon
  exact hab ⟨hwa ▸ hcon.1, hpb ▸ hcon.2⟩

theorem cap_P2 (l : List Char) (b : Bool) (h : P2 l) : P2 (capitalizeAux b l) := by
  refine capAux_chain _ ?_ l b h
  intro a b hab a' b' hwa hpa hwb hpb hp
  rcases hab (hpa ▸ hp) with h1 | h1
  · exact Or.inl (hpb ▸ h1)
  · exact Or.inr (hwb ▸ h1)

/-- Every output of `normalize_text` satisfies the normal-form
invariants. -/
theorem normalize_props (s : List Char) :
    NoDS (normalize_text s) ∧ P1 (normalize_text s) ∧ P2 (normalize_text s) ∧
      capFix true (normalize_text s) ∧ Trimmed (normalize_text s) := by
  have hu : NoDS (collapse_spaces s) := collapse_spaces_NoDS s
  have hv : NoDS (ensure_space_after_punct (collapse_spaces s)) := ensure_NoDS _ hu
  have hvE1 := ensure_E1 (collapse_spaces s)
  have hw := remove_NoDS _ hv
  have hwP1 := remove_P1 _ hv
  have hwP2 := remove_P2 _ hv hvE1
  have hx : NoDS (capitalize_sentences (remove_space_before_punct
      (ensure_space_after_punct (collapse_spaces s)))) :=
    ⟨capAux_ws1 _ true hw.1, cap_noDbl _ true hw.2⟩
  have hxP1 : P1 (capitalize_sentences (remove_space_before_punct
      (ensure_space_after_punct (collapse_spaces s)))) := cap_P1 _ true hwP1
  have hxP2 : P2 (capitalize_sentences (remove_space_before_punct
      (ensure_space_after_punct (collapse_spaces s)))) := cap_P2 _ true hwP2
  have hxFix : capFix true (capitalize_sentences (remove_space_before_punct
      (ensure_space_after_punct (collapse_spaces s)))) := capFix_of_capAux _ true
  have hnt : normalize_text s = trimChars (capitalize_sentences (remove_space_before_punct
      (ensure_space_after_punct (collapse_spaces s)))) := by
    show trimChars (collapse_spaces (capitalize_sentences (remove_space_before_punct
      (ensure_space_after_punct (collapse_spaces s))))) = _
    rw [collapse_spaces_id _ hx]
  rw [hnt]
  refine ⟨⟨?_, chain'_trim _ _ hx.2⟩, chain'_trim _ _ hxP1, chain'_trim _ _ hxP2, ?_,
    trimmed_trim _⟩
  · intro c hc hw2
    exact hx.1 c (trim_subset _ c hc) hw2
  · rcases trim_prefix (capitalize_sentences (remove_space_before_punct
      (ensure_space_after_punct (collapse_spaces s)))) with ⟨l2, hl2⟩
    have h1 := capFix_dropWhile _ hxFix
    rw [hl2] at h1
    exact capFix_append_left _ _ _ h1

/-- Strings in normal form are fixed points of `normalize_text`. -/
theorem normalize_fix (t : List Char) (h1 : NoDS t) (h2 : P1 t) (h3 : P2 t)
    (h4 : capFix true t) (h5 : Trimmed t) : normalize_text t = t := by
  show trimChars (collapse_spaces (capitalize_sentences (remove_space_before_punct
    (ensure_space_after_punct (collapse_spaces t))))) = t
  rw [collapse_spaces_id _ h1]
  rw [remove_ensure_id t h1 h2 h3]
  rw [show capitalize_sentences t = t from capFix_id t true h4]
  rw [collapse_spaces_id _ h1]
  exact trim_id t h5

/-- C9: the stitcher's text normalization — collapse whitespace to
single spaces, ensure one space after `.`/`,`/`!`/`?`, remove spaces
before those marks, capitalize the first alphabetic character after each
sentence-ending `.`/`!`/`?`, collapse again and trim — is idempotent:
`normalize_text (normalize_text s) = normalize_text s` for every
string. -/
theorem C9_normalize_idempotent (s : List Char) :
    normalize_text (normalize_text s) = normalize_text s := by
  rcases normalize_props s with ⟨h1, h2, h3, h4, h5⟩
  exact normalize_fix _ h1 h2 h3 h4 h5
